import Mathlib

/-!
# Verification of the takeoff-calculator scale-resolution and measurement-state engine

A shallow embedding of the Rust sources under `src/crates/takeoff_core` and
`src/packages/bindings`.  Numeric conventions:

* `f64` pixel coordinates and rational quantities are embedded as `ℚ`
  (exact real-number semantics of the floating-point programs);
* quantities that go through `sqrt` (Euclidean distances, hence perimeters
  and lengths) are embedded as `ℝ`;
* the `uom` quantities `Area`/`Length` are embedded as their SI magnitude
  (square meters as `ℚ`, meters as `ℝ`), with each unit's exact conversion
  coefficient.

Mutexes are embedded as `LockCell` values carrying a poison flag; Rust's
`lock()` result is replayed by `lock_mutex`, and a `.expect(...)` on a
poisoned lock is a panic, modelled by the `POut` outcome monad.
-/

namespace Takeoff

/-- Error taxonomy of `takeoff_core` (src/crates/takeoff_core/src/error.rs). -/
inductive TakeoffError
  | emptyGeometry (message : String)
  | invalidScale (message : String)
  | unknownUnit (unit : String)
  | surfaceMeshTooFewPoints (count : Nat)
  | surfaceMeshCollinearPoints
  | poisonError (resource : String)
  | unknownError (message : String)
deriving DecidableEq, Repr

/-- `TakeoffResult<T>` (src/crates/takeoff_core/src/error.rs). -/
abbrev TakeoffResult (α : Type) := Except TakeoffError α

instance {ε α : Type} [DecidableEq ε] [DecidableEq α] : DecidableEq (Except ε α) :=
  fun x y =>
  match x, y with
  | .ok a, .ok b =>
    if h : a = b then isTrue (by rw [h]) else isFalse (by intro hh; cases hh; exact h rfl)
  | .error e, .error f =>
    if h : e = f then isTrue (by rw [h]) else isFalse (by intro hh; cases hh; exact h rfl)
  | .ok _, .error _ => isFalse (by intro hh; cases hh)
  | .error _, .ok _ => isFalse (by intro hh; cases hh)

@[simp] theorem takeoffResult_pure_eq {α : Type} (a : α) :
    (pure a : TakeoffResult α) = .ok a := rfl

@[simp] theorem takeoffResult_throw_eq {α : Type} (e : TakeoffError) :
    (throw e : TakeoffResult α) = .error e := rfl

@[simp] theorem takeoffResult_bind_ok {α β : Type} (a : α) (f : α → TakeoffResult β) :
    ((Except.ok a : TakeoffResult α) >>= f) = f a := rfl

@[simp] theorem takeoffResult_bind_error {α β : Type} (e : TakeoffError)
    (f : α → TakeoffResult β) :
    ((Except.error e : TakeoffResult α) >>= f) = .error e := rfl

@[simp] theorem takeoffResult_map_ok {α β : Type} (f : α → β) (a : α) :
    (f <$> (Except.ok a : TakeoffResult α)) = .ok (f a) := rfl

@[simp] theorem takeoffResult_map_error {α β : Type} (f : α → β) (e : TakeoffError) :
    (f <$> (Except.error e : TakeoffResult α)) = .error e := rfl

/-- Measurement units supported by the system (src/crates/takeoff_core/src/unit.rs). -/
inductive Unit
  | yards
  | feet
  | inches
  | meters
  | centimeters
deriving DecidableEq, Repr

namespace Unit

/-- Exact SI coefficient of one unit in meters, as used by the `uom` crate
(yard = 0.9144 m, foot = 0.3048 m, inch = 0.0254 m, centimeter = 0.01 m). -/
def lengthFactor : Unit → ℚ
  | yards => 9144 / 10000
  | feet => 3048 / 10000
  | inches => 254 / 10000
  | meters => 1
  | centimeters => 1 / 100

/-- Exact SI coefficient of one squared unit in square meters, as used by `uom`
(`square_yard` = 0.9144² m², and so on: the areal coefficients of `uom` are
exactly the squares of the linear ones). -/
def areaFactor (u : Unit) : ℚ := u.lengthFactor * u.lengthFactor

/-- `Unit::get_unit` (src/crates/takeoff_core/src/unit.rs): build a `uom`
`Length` carrying `value` in unit `u`; embedded as its SI magnitude. -/
noncomputable def get_unit (u : Unit) (value : ℝ) : ℝ := value * (u.lengthFactor : ℝ)

/-- `uom`'s `Length::get::<u>()`: read a length back in unit `u`. -/
noncomputable def lengthGet (length : ℝ) (u : Unit) : ℝ := length / (u.lengthFactor : ℝ)

/-- `Unit::convert_length_to_unit` (src/crates/takeoff_core/src/unit.rs). -/
noncomputable def convert_length_to_unit (u : Unit) (length : ℝ) : ℝ :=
  lengthGet length u

/-- `Unit::get_area_unit` (src/crates/takeoff_core/src/unit.rs): build a `uom`
`Area` carrying `value` in unit `u`; embedded as its SI magnitude. -/
def get_area_unit (u : Unit) (value : ℚ) : ℚ := value * u.areaFactor

/-- `uom`'s `Area::get::<u>()`: read an area back in squared unit `u`. -/
def areaGet (area : ℚ) (u : Unit) : ℚ := area / u.areaFactor

/-- `Unit::convert_area_to_unit` (src/crates/takeoff_core/src/unit.rs). -/
def convert_area_to_unit (u : Unit) (area : ℚ) : ℚ := areaGet area u

/-- `Unit::convert` (src/crates/takeoff_core/src/unit.rs): lift `value` into a
`Length` in unit `self`, then read it out in unit `to`. -/
noncomputable def convert (self : Unit) (value : ℝ) (toU : Unit) : ℝ :=
  let f := self.get_unit value
  match toU with
  | yards => lengthGet f yards
  | feet => lengthGet f feet
  | inches => lengthGet f inches
  | meters => lengthGet f meters
  | centimeters => lengthGet f centimeters

/-- `Unit::convert_area` (src/crates/takeoff_core/src/unit.rs). -/
def convert_area (self : Unit) (value : ℚ) (toU : Unit) : ℚ :=
  let f := self.get_area_unit value
  match toU with
  | yards => areaGet f yards
  | feet => areaGet f feet
  | inches => areaGet f inches
  | meters => areaGet f meters
  | centimeters => areaGet f centimeters

theorem lengthFactor_pos (u : Unit) : 0 < u.lengthFactor := by
  cases u <;> norm_num [lengthFactor]

theorem lengthFactor_ne_zero (u : Unit) : u.lengthFactor ≠ 0 :=
  ne_of_gt (lengthFactor_pos u)

theorem areaFactor_ne_zero (u : Unit) : u.areaFactor ≠ 0 :=
  mul_ne_zero (lengthFactor_ne_zero u) (lengthFactor_ne_zero u)

end Unit

/-- `UnitUtils::convert` (src/crates/takeoff_core/src/unit.rs); the Rust
parameters are `(value, from, to)`. -/
noncomputable def UnitUtils.convert (value : ℝ) (fromU toU : Unit) : ℝ :=
  fromU.convert value toU

/-- `UnitUtils::convert_area` (src/crates/takeoff_core/src/unit.rs). -/
def UnitUtils.convert_area (value : ℚ) (fromU toU : Unit) : ℚ :=
  fromU.convert_area value toU

theorem Unit.convert_eq (self : Unit) (value : ℝ) (toU : Unit) :
    self.convert value toU = value * (self.lengthFactor : ℝ) / (toU.lengthFactor : ℝ) := by
  cases toU <;> simp [Unit.convert, Unit.get_unit, Unit.lengthGet]

/-- A 2D point with (exact-valued) floating point coordinates
(src/crates/takeoff_core/src/coords.rs). -/
structure Point where
  x : ℚ
  y : ℚ
deriving DecidableEq, Repr

instance : Inhabited Point := ⟨⟨0, 0⟩⟩

/-- `Point::distance_to` (src/crates/takeoff_core/src/coords.rs):
`sqrt(dx*dx + dy*dy)`. -/
noncomputable def Point.distance_to (self other : Point) : ℝ :=
  let dx := self.x - other.x
  let dy := self.y - other.y
  Real.sqrt ((dx * dx + dy * dy : ℚ) : ℝ)

/-- `f64::EPSILON` (2⁻⁵²), used by `Measurement::validate` for the
degenerate-rectangle check. -/
def epsF64 : ℚ := 1 / 2 ^ 52

/-- The measurement tagged union (src/crates/takeoff_core/src/measurement.rs).
Every variant carries `id`, `page_id`, `group_id` and its geometry. -/
inductive Measurement
  | count (id page_id group_id : String) (point : Point)
  | polygon (id page_id group_id : String) (points : List Point)
  | polyline (id page_id group_id : String) (points : List Point)
  | rectangle (id page_id group_id : String) (p1 p2 : Point)
deriving DecidableEq, Repr

namespace Measurement

/-- `Measurement::id` (src/crates/takeoff_core/src/measurement.rs). -/
def id : Measurement → String
  | count i _ _ _ => i
  | polygon i _ _ _ => i
  | polyline i _ _ _ => i
  | rectangle i _ _ _ _ => i

/-- `Measurement::page_id` (src/crates/takeoff_core/src/measurement.rs). -/
def page_id : Measurement → String
  | count _ p _ _ => p
  | polygon _ p _ _ => p
  | polyline _ p _ _ => p
  | rectangle _ p _ _ _ => p

/-- `Measurement::group_id` (src/crates/takeoff_core/src/measurement.rs). -/
def group_id : Measurement → String
  | count _ _ g _ => g
  | polygon _ _ g _ => g
  | polyline _ _ g _ => g
  | rectangle _ _ g _ _ => g

/-- `Measurement::validate` (src/crates/takeoff_core/src/measurement.rs):
polygons need ≥ 3 points, polylines ≥ 2, rectangle corners must differ by at
least `f64::EPSILON` in one coordinate; counts are always valid.  The Rust
messages interpolate the point count; we replay the interpolation. -/
def validate : Measurement → TakeoffResult PUnit
  | polygon _ _ _ points =>
    if points.length < 3 then
      throw (.emptyGeometry
        ("polygon must have at least 3 points, got " ++ toString points.length))
    else pure PUnit.unit
  | polyline _ _ _ points =>
    if points.length < 2 then
      throw (.emptyGeometry
        ("polyline must have at least 2 points, got " ++ toString points.length))
    else pure PUnit.unit
  | rectangle _ _ _ p1 p2 =>
    if |p1.x - p2.x| < epsF64 ∧ |p1.y - p2.y| < epsF64 then
      throw (.emptyGeometry "rectangle corners must be distinct points")
    else pure PUnit.unit
  | count _ _ _ _ => pure PUnit.unit

end Measurement

/-- `geo`'s `LineString::close` as used by `Polygon::new`: append the first
point when the ring is not already closed (first = last). -/
def closeRing (ps : List Point) : List Point :=
  match ps with
  | [] => []
  | p :: _ => if ps.getLast? = some p then ps else ps ++ [p]

/-- `geo`'s `Rect::new(c1, c2).to_polygon()`: normalise the two corners to
(min, max) per axis and return the closed 5-point exterior ring. -/
def rectRing (p1 p2 : Point) : List Point :=
  let minx := min p1.x p2.x
  let miny := min p1.y p2.y
  let maxx := max p1.x p2.x
  let maxy := max p1.y p2.y
  [⟨minx, miny⟩, ⟨maxx, miny⟩, ⟨maxx, maxy⟩, ⟨minx, maxy⟩, ⟨minx, miny⟩]

/-- Twice the signed shoelace area of a ring, accumulated over consecutive
pairs exactly as the geometry kernel sums the cross terms of each segment. -/
def twiceSignedArea : List Point → ℚ
  | p :: q :: rest => (p.x * q.y - q.x * p.y) + twiceSignedArea (q :: rest)
  | _ => 0

/-- `geo`'s `Polygon::unsigned_area` on a closed exterior ring:
`|signed shoelace area|`. -/
def ringUnsignedArea (ring : List Point) : ℚ := |twiceSignedArea ring| / 2

/-- The geometry kernel's `Geometry` value as produced by
`Measurement::to_geometry`: a polygon is kept as its closed exterior ring. -/
inductive Geometry
  | polygon (exterior : List Point)
  | lineString (points : List Point)
  | point (p : Point)
deriving DecidableEq, Repr

/-- The coordinates of a geometry, for bounding-box containment. -/
def Geometry.coords : Geometry → List Point
  | .polygon exterior => exterior
  | .lineString points => points
  | .point p => [p]

namespace Measurement

/-- `Measurement::to_polygon` (src/crates/takeoff_core/src/measurement.rs):
validate, then build the closed exterior ring (the embedded `geo::Polygon`);
counts and polylines cannot be converted. -/
def to_polygon (m : Measurement) : TakeoffResult (List Point) := do
  let _ ← m.validate
  match m with
  | polygon _ _ _ points => pure (closeRing points)
  | rectangle _ _ _ p1 p2 => pure (rectRing p1 p2)
  | _ => throw (.emptyGeometry "measurement cannot be converted to polygon")

/-- `Measurement::to_line_string` (src/crates/takeoff_core/src/measurement.rs). -/
def to_line_string (m : Measurement) : TakeoffResult (List Point) := do
  let _ ← m.validate
  match m with
  | polyline _ _ _ points => pure points
  | rectangle _ _ _ _ _ => m.to_polygon
  | polygon _ _ _ _ => m.to_polygon
  | count _ _ _ _ =>
    throw (.emptyGeometry "count measurement cannot be converted to line string")

/-- `Measurement::to_point` (src/crates/takeoff_core/src/measurement.rs). -/
def to_point (m : Measurement) : TakeoffResult Point :=
  match m with
  | count _ _ _ point => pure point
  | polygon _ _ _ points =>
    match points with
    | [] => throw (.emptyGeometry "polygon has no points")
    | p :: _ => pure p
  | polyline _ _ _ points =>
    match points with
    | [] => throw (.emptyGeometry "polyline has no points")
    | p :: _ => pure p
  | rectangle _ _ _ p1 _ => pure p1

/-- `Measurement::to_geometry` (src/crates/takeoff_core/src/measurement.rs). -/
def to_geometry (m : Measurement) : TakeoffResult Geometry := do
  let _ ← m.validate
  match m with
  | polygon _ _ _ _ => do pure (Geometry.polygon (← m.to_polygon))
  | rectangle _ _ _ _ _ => do pure (Geometry.polygon (← m.to_polygon))
  | polyline _ _ _ _ => do pure (Geometry.lineString (← m.to_line_string))
  | count _ _ _ _ => do pure (Geometry.point (← m.to_point))

/-- `Measurement::pixel_area` (src/crates/takeoff_core/src/measurement.rs):
the unsigned shoelace area of `to_polygon`. -/
def pixel_area (m : Measurement) : TakeoffResult ℚ := do
  let ring ← m.to_polygon
  pure (ringUnsignedArea ring)

end Measurement

/-- Sum of the edges of a closed ring exactly as the Rust loops do it:
`for i in 0..n { perimeter += dist(ps[i], ps[(i+1) % n]) }`. -/
noncomputable def perimClosed (ps : List Point) : ℝ :=
  ((List.range ps.length).map
    (fun i => (ps.getD i default).distance_to (ps.getD ((i + 1) % ps.length) default))).sum

/-- Open-chain sum of consecutive segment lengths:
`for i in 0..n-1 { perimeter += dist(ps[i], ps[i+1]) }`. -/
noncomputable def perimOpen (ps : List Point) : ℝ :=
  ((List.range (ps.length - 1)).map
    (fun i => (ps.getD i default).distance_to (ps.getD (i + 1) default))).sum

/-- `Measurement::pixel_perimeter` (src/crates/takeoff_core/src/measurement.rs):
closed-ring edge sum for polygons (over the raw points) and rectangles (over
the 5-point exterior ring), open-chain sum for polylines, 0 for counts. -/
noncomputable def Measurement.pixel_perimeter (m : Measurement) : TakeoffResult ℝ := do
  let _ ← m.validate
  match m with
  | .polygon _ _ _ points => pure (perimClosed points)
  | .rectangle _ _ _ _ _ => do
    let ring ← m.to_polygon
    pure (perimClosed ring)
  | .polyline _ _ _ points => pure (perimOpen points)
  | .count _ _ _ _ => pure 0

/-- `ScaleDefinition` (src/crates/takeoff_core/src/scale.rs). -/
structure ScaleDefinition where
  pixel_distance : ℚ
  real_distance : ℚ
  unit : Unit
deriving DecidableEq, Repr

/-- Modelled from the spec: `ScaleDefinition::ratio` is called by the bindings
(`scale.ratio()?`) but its definition is not among the sources under `src/`.
Per the spec, `ratio = pixel_distance / real_distance` (pixels per one
real-world unit) and both distances must be strictly positive, otherwise the
ratio is undefined and an `InvalidScale` error is returned. -/
def ScaleDefinition.ratio (d : ScaleDefinition) : TakeoffResult ℚ :=
  if d.pixel_distance ≤ 0 ∨ d.real_distance ≤ 0 then
    throw (.invalidScale "pixel and real distances must be strictly positive")
  else
    pure (d.pixel_distance / d.real_distance)

/-- The scale tagged union (src/crates/takeoff_core/src/scale.rs).
`dflt` embeds the Rust variant `Scale::Default` (the name `default` is kept
free to avoid clashing with `Inhabited.default`). -/
inductive Scale
  | area (id page_id : String) (scale : ScaleDefinition) (bounding_box : Point × Point)
  | dflt (id page_id : String) (scale : ScaleDefinition)
deriving DecidableEq, Repr

namespace Scale

/-- `Scale::id` (src/crates/takeoff_core/src/scale.rs). -/
def id : Scale → String
  | area i _ _ _ => i
  | dflt i _ _ => i

/-- `Scale::page_id` (src/crates/takeoff_core/src/scale.rs). -/
def page_id : Scale → String
  | area _ p _ _ => p
  | dflt _ p _ => p

/-- The inner `ScaleDefinition` of either variant. -/
def scaleDef : Scale → ScaleDefinition
  | area _ _ s _ => s
  | dflt _ _ s => s

/-- `matches!(scale, Scale::Area { .. })` as tested by the resolver loop. -/
def isArea : Scale → Bool
  | area _ _ _ _ => true
  | dflt _ _ _ => false

/-- Modelled from the spec: `Scale::ratio`, used by the bindings but not under
`src/`; it delegates to the scale definition's ratio. -/
def ratio (s : Scale) : TakeoffResult ℚ := s.scaleDef.ratio

/-- Modelled from the spec: `Scale::get_unit`, used by the bindings
(`scale.get_unit()`) but not under `src/`; the quantities derived from a scale
are "expressed in the scale's unit", so this is the definition's unit. -/
def get_unit (s : Scale) : Unit := s.scaleDef.unit

/-- `Scale::bounding_box_to_polygon` (src/crates/takeoff_core/src/scale.rs):
the axis-aligned rectangle of the two corner points as a closed ring (only for
`Area` scales). -/
def bounding_box_to_polygon : Scale → Option (List Point)
  | area _ _ _ bb => some (rectRing bb.1 bb.2)
  | dflt _ _ _ => none

/-- Whether `p` lies in the closed axis-aligned rectangle spanned by `p1`, `p2`. -/
def rectContains (p1 p2 p : Point) : Bool :=
  decide (min p1.x p2.x ≤ p.x) && decide (p.x ≤ max p1.x p2.x) &&
  decide (min p1.y p2.y ≤ p.y) && decide (p.y ≤ max p1.y p2.y)

/-- `Scale::is_in_bounding_box` (src/crates/takeoff_core/src/scale.rs).
The containment test itself is the external geometry kernel's
`contains(polygon, geometry)`, modelled from the spec: an `Area` scale
"applies only to measurements whose geometry lies fully inside the
axis-aligned rectangle formed by the two corner points", i.e. every coordinate
of the geometry is inside the rectangle (a rectangle is convex, so vertex
containment is full containment); `Default` scales never contain anything. -/
def is_in_bounding_box (s : Scale) (geometry : Geometry) : Bool :=
  match s with
  | area _ _ _ bb => geometry.coords.all (rectContains bb.1 bb.2)
  | dflt _ _ _ => false

end Scale

/-- The resolver loop body of `MeasurementWrapper::calculate_scale`
(src/packages/bindings/src/measurement.rs): walk the page's scales in order,
returning the first `Area` scale whose bounding box contains the geometry
(short-circuit), while remembering the most recent non-`Area` scale as
`current_scale`; after the loop the remembered scale (if any) is the result. -/
def scaleLoop (geometry : Geometry) : List Scale → Option Scale → Option Scale
  | [], current_scale => current_scale
  | scale :: rest, current_scale =>
    if scale.isArea then
      if scale.is_in_bounding_box geometry then some scale
      else scaleLoop geometry rest current_scale
    else
      scaleLoop geometry rest (some scale)

/-- An `Arc<Mutex<α>>` cell: its current contents plus a poison flag (set when
a thread died while holding the lock; injected here as part of the state). -/
structure LockCell (α : Type) where
  poisoned : Bool
  val : α
deriving DecidableEq, Repr

/-- A healthy (unpoisoned) cell holding `a`. -/
def LockCell.mk0 {α : Type} (a : α) : LockCell α := ⟨false, a⟩

/-- `lock_mutex` (src/packages/bindings/src/utils.rs): lock a mutex and
convert a poison error into `TakeoffError::PoisonError { resource }`. -/
def lock_mutex {α : Type} (guard : LockCell α) (resource : String) : TakeoffResult α :=
  if guard.poisoned then throw (.poisonError resource) else pure guard.val

/-- `UnitMagnitude` (src/crates/takeoff_core/src/unit.rs). -/
inductive UnitMagnitude
  | area
  | length
deriving DecidableEq, Repr

/-- `UnitValue` (src/crates/takeoff_core/src/unit.rs): one of a `uom` area or
length, embedded as SI magnitudes. -/
structure UnitValue where
  area : Option ℚ
  length : Option ℝ
  magnitude : UnitMagnitude

/-- Modelled from the spec: `UnitValue::from_area`, used by the bindings'
getters but not under `src/`: wraps an area quantity (cf. `UnitValue::new`,
which builds the same shape from a raw value and unit). -/
def UnitValue.from_area (a : ℚ) : UnitValue := ⟨some a, none, .area⟩

/-- Modelled from the spec: `UnitValue::from_length`, used by the bindings'
getters but not under `src/`: wraps a length quantity. -/
noncomputable def UnitValue.from_length (l : ℝ) : UnitValue := ⟨none, some l, .length⟩

/-- Modelled from the spec: `MeasurementType` on groups; its source file
(`takeoff_core/src/group.rs`) is declared in `lib.rs` but is not under `src/`.
The tests use `MeasurementType::Area`; the variants mirror the quantity kinds
of the engine.  The engine never branches on it. -/
inductive MeasurementType
  | area
  | length
  | count
deriving DecidableEq, Repr

/-- Modelled from the spec: `Group` — "{id, name?, measurement_type}. Owns no
geometry; is purely an aggregation bucket" — whose source file
(`takeoff_core/src/group.rs`) is declared in `lib.rs` but is not under `src/`. -/
structure Group where
  id : String
  name : Option String
  measurement_type : MeasurementType
deriving DecidableEq, Repr

/-- `PageViewport` (src/packages/bindings/src/page.rs). -/
structure PageViewport where
  width : ℚ
  height : ℚ
deriving DecidableEq, Repr

/-- Modelled from the spec: `Page` — "{id, name?, width?, height?, viewport?}.
Purely a scoping key for scale resolution" — whose core source file
(`takeoff_core/src/page.rs`) is declared in `lib.rs` but is not under `src/`
(the napi `Page` object under src/packages/bindings/src/page.rs has exactly
this shape). -/
structure Page where
  id : String
  name : Option String
  width : Option ℚ
  height : Option ℚ
  viewport : Option PageViewport
deriving DecidableEq, Repr

/-- The outcome of running Rust code that may panic (an `.expect(...)` hit on
a poisoned mutex, rethrown on join by `std::thread::scope`). -/
inductive POut (α : Type)
  | panic
  | ok (val : α)
deriving DecidableEq, Repr

instance : Monad POut where
  pure := POut.ok
  bind := fun x f => match x with | .panic => .panic | .ok a => f a

/-- The per-measurement cache cell `MeasurementWrapper`
(src/packages/bindings/src/measurement.rs).  The `Arc<TakeoffStateHandler>`
back-reference is not stored: the registry is passed explicitly to the
operations that use it.  `area` holds a cached `uom::Area` (SI ℚ), `length` a
cached `uom::Length` (SI ℝ). -/
structure MeasurementWrapper where
  measurement : LockCell Measurement
  scale : LockCell (Option Scale)
  area : LockCell (Option ℚ)
  length : LockCell (Option ℝ)
  points : ℚ

namespace MeasurementWrapper

/-- `MeasurementWrapper::new` (src/packages/bindings/src/measurement.rs):
fresh unpoisoned cells, empty caches, and the point count fixed from the
construction-time geometry (Count → 1, Rectangle → 4, Polygon/Polyline →
number of points). -/
def new (measurement : Measurement) : MeasurementWrapper :=
  let points : Nat :=
    match measurement with
    | .count _ _ _ _ => 1
    | .polygon _ _ _ points => points.length
    | .polyline _ _ _ points => points.length
    | .rectangle _ _ _ _ _ => 4
  { measurement := LockCell.mk0 measurement
    scale := LockCell.mk0 none
    area := LockCell.mk0 none
    length := LockCell.mk0 none
    points := (points : ℚ) }

/-- `MeasurementWrapper::get_points` (getter). -/
def get_points (w : MeasurementWrapper) : ℚ := w.points

/-- `MeasurementWrapper::get_count` (getter): always 1. -/
def get_count (_w : MeasurementWrapper) : ℚ := 1

/-- `MeasurementWrapper::get_scale` (getter): `lock(...).ok().and_then(clone)`
— `none` both when unassigned and when the lock is poisoned. -/
def get_scale (w : MeasurementWrapper) : Option Scale :=
  if w.scale.poisoned then none else w.scale.val

/-- `MeasurementWrapper::raw_area` (getter): lock the geometry and take its
pixel area. -/
def raw_area (w : MeasurementWrapper) : TakeoffResult ℚ := do
  let m ← lock_mutex w.measurement "measurement"
  m.pixel_area

/-- `MeasurementWrapper::raw_perimeter` (getter). -/
noncomputable def raw_perimeter (w : MeasurementWrapper) : TakeoffResult ℝ := do
  let m ← lock_mutex w.measurement "measurement"
  m.pixel_perimeter

/-- `MeasurementWrapper::calculate_area`
(src/packages/bindings/src/measurement.rs): under the scale lock, if a scale
is assigned, `raw_area / ratio²` wrapped as a `uom::Area` in the scale's unit
(the `as f32` narrowing is embedded exactly); otherwise `None`. -/
def calculate_area (w : MeasurementWrapper) : TakeoffResult (Option ℚ) := do
  let scale_guard ← lock_mutex w.scale "scale"
  match scale_guard with
  | some scale => do
    let scale_ratio ← scale.ratio
    let raw_area ← w.raw_area
    let area := raw_area / (scale_ratio * scale_ratio)
    pure (some (scale.get_unit.get_area_unit area))
  | none => pure none

/-- `MeasurementWrapper::calculate_length`
(src/packages/bindings/src/measurement.rs): `raw_perimeter / ratio` wrapped as
a `uom::Length` in the scale's unit when a scale is assigned. -/
noncomputable def calculate_length (w : MeasurementWrapper) : TakeoffResult (Option ℝ) := do
  let scale_guard ← lock_mutex w.scale "scale"
  match scale_guard with
  | some scale => do
    let scale_ratio ← scale.ratio
    let raw_perimeter ← w.raw_perimeter
    let length := raw_perimeter / (scale_ratio : ℝ)
    pure (some (scale.get_unit.get_unit length))
  | none => pure none

/-- `MeasurementWrapper::get_area_value`
(src/packages/bindings/src/measurement.rs): get-or-compute under the area
lock; on a cold cache the computed value is written back.  Returns the Rust
result together with the possibly-updated cell states. -/
def get_area_value (w : MeasurementWrapper) :
    TakeoffResult (Option ℚ) × MeasurementWrapper :=
  match lock_mutex w.area "area" with
  | .error e => (.error e, w)
  | .ok a =>
    match a with
    | some _ => (.ok a, w)
    | none =>
      match w.calculate_area with
      | .error e => (.error e, w)
      | .ok v => (.ok v, { w with area := { w.area with val := v } })

/-- `MeasurementWrapper::get_length_value`
(src/packages/bindings/src/measurement.rs). -/
noncomputable def get_length_value (w : MeasurementWrapper) :
    TakeoffResult (Option ℝ) × MeasurementWrapper :=
  match lock_mutex w.length "length" with
  | .error e => (.error e, w)
  | .ok l =>
    match l with
    | some _ => (.ok l, w)
    | none =>
      match w.calculate_length with
      | .error e => (.error e, w)
      | .ok v => (.ok v, { w with length := { w.length with val := v } })

/-- `MeasurementWrapper::get_area` (getter): `if let Ok(Some(area)) =
get_area_value { Some(UnitValue::from_area(area)) } else { None }`. -/
def get_area (w : MeasurementWrapper) : Option UnitValue × MeasurementWrapper :=
  match w.get_area_value with
  | (.ok (some area), w') => (some (UnitValue.from_area area), w')
  | (_, w') => (none, w')

/-- `MeasurementWrapper::get_length` (getter): errors propagate, an assigned
scale yields `Some(UnitValue::from_length(..))` from a fresh
`calculate_length` (this getter does not consult the cache). -/
noncomputable def get_length (w : MeasurementWrapper) :
    TakeoffResult (Option UnitValue) := do
  match ← w.calculate_length with
  | some length => pure (some (UnitValue.from_length length))
  | none => pure none

/-- `MeasurementWrapper::get_group_id` (getter): `.expect(...)` on the
measurement lock — a poisoned lock is a panic. -/
def get_group_id (w : MeasurementWrapper) : POut String :=
  if w.measurement.poisoned then .panic else .ok w.measurement.val.group_id

/-- `MeasurementWrapper::page_id` (getter): `.expect(...)` on the measurement
lock — a poisoned lock is a panic. -/
def page_id (w : MeasurementWrapper) : POut String :=
  if w.measurement.poisoned then .panic else .ok w.measurement.val.page_id

/-- `MeasurementWrapper::get_measurement` (getter): `.expect(...)` on the
measurement lock. -/
def get_measurement (w : MeasurementWrapper) : POut Measurement :=
  if w.measurement.poisoned then .panic else .ok w.measurement.val

end MeasurementWrapper

/-! ## The concurrent registry

The four `DashMap`s of `TakeoffStateHandler` are embedded as association
lists in iteration order (the spec requires an explicitly ordered sequence
for determinism; `DashMap` iteration order is replayed by the list order).
A Rust clone of a wrapper shares its `Arc<Mutex<..>>` cells with the map
entry, so a handle to a measurement or group is embedded as its key and all
cell reads/writes go through the registry. -/

/-- Key-to-value association in map iteration order. -/
def lookupA {α : Type} (l : List (String × α)) (k : String) : Option α :=
  (l.find? (fun kv => kv.1 == k)).map (·.2)

/-- `DashMap::insert`: replace in place when the key exists, else append. -/
def insertA {α : Type} (l : List (String × α)) (k : String) (v : α) :
    List (String × α) :=
  if (l.find? (fun kv => kv.1 == k)).isSome then
    l.map (fun kv => if kv.1 == k then (k, v) else kv)
  else
    l ++ [(k, v)]

/-- `DashMap::remove` (dropping the returned value). -/
def removeA {α : Type} (l : List (String × α)) (k : String) : List (String × α) :=
  l.filter (fun kv => kv.1 != k)

/-- In-place update of the entry at key `k` (a write through a held handle to
the shared `Arc<Mutex<..>>` cell of the map's single entry for that key). -/
def updateA {α : Type} (l : List (String × α)) (k : String) (f : α → α) :
    List (String × α) :=
  match l with
  | [] => []
  | kv :: t => if kv.1 == k then (kv.1, f kv.2) :: t else kv :: updateA t k f

/-- The per-group aggregate holder `GroupWrapper`
(src/packages/bindings/src/group.rs); the `Arc<TakeoffStateHandler>`
back-reference is passed explicitly to `recompute_measurements`. -/
structure GroupWrapper where
  group : Group
  area : LockCell (Option ℚ)
  length : LockCell (Option ℝ)
  points : LockCell (Option ℚ)
  count : LockCell (Option ℚ)

namespace GroupWrapper

/-- The construction part of `GroupWrapper::new`
(src/packages/bindings/src/group.rs): fresh unpoisoned empty cells.  The Rust
constructor immediately runs `let _ = res.recompute_measurements();`; in the
embedding that recompute is applied by each caller, which holds the registry. -/
def new (group : Group) : GroupWrapper :=
  { group := group
    area := LockCell.mk0 none
    length := LockCell.mk0 none
    points := LockCell.mk0 none
    count := LockCell.mk0 none }

/-- `GroupWrapper::id` (getter). -/
def id (g : GroupWrapper) : String := g.group.id

/-- `GroupWrapper::get_area` (getter): `None` when uncomputed or poisoned. -/
def get_area (g : GroupWrapper) : Option UnitValue :=
  if g.area.poisoned then none else g.area.val.map UnitValue.from_area

/-- `GroupWrapper::get_points` (getter). -/
def get_points (g : GroupWrapper) : Option ℚ :=
  if g.points.poisoned then none else g.points.val

/-- `GroupWrapper::get_count` (getter). -/
def get_count (g : GroupWrapper) : Option ℚ :=
  if g.count.poisoned then none else g.count.val

/-- `GroupWrapper::get_group` (getter). -/
def get_group (g : GroupWrapper) : Group := g.group

end GroupWrapper

/-- `TakeoffStateHandler` (src/packages/bindings/src/state.rs). -/
structure TakeoffStateHandler where
  pages : List (String × Page)
  groups : List (String × GroupWrapper)
  measurements : List (String × MeasurementWrapper)
  scales : List (String × Scale)

namespace TakeoffStateHandler

/-- Write through a measurement handle: update the cells at key `mid`. -/
def updMeas (st : TakeoffStateHandler) (mid : String)
    (f : MeasurementWrapper → MeasurementWrapper) : TakeoffStateHandler :=
  { st with measurements := updateA st.measurements mid f }

/-- `TakeoffStateHandler::get_page_scales` (src/packages/bindings/src/state.rs):
the scales whose `page_id` matches, in map iteration order. -/
def get_page_scales (st : TakeoffStateHandler) (page_id : String) : List Scale :=
  (st.scales.filter (fun kv => kv.2.page_id == page_id)).map (·.2)

/-- `TakeoffStateHandler::get_measurement` (src/packages/bindings/src/state.rs). -/
def get_measurement (st : TakeoffStateHandler) (measurement_id : String) :
    Option MeasurementWrapper :=
  lookupA st.measurements measurement_id

/-- `TakeoffStateHandler::get_group` (src/packages/bindings/src/state.rs). -/
def get_group (st : TakeoffStateHandler) (group_id : String) : Option GroupWrapper :=
  lookupA st.groups group_id

/-- `TakeoffStateHandler::upsert_page` (src/packages/bindings/src/state.rs). -/
def upsert_page (st : TakeoffStateHandler) (page : Page) :
    Option Page × TakeoffStateHandler :=
  (lookupA st.pages page.id, { st with pages := insertA st.pages page.id page })

/-- `TakeoffStateHandler::remove_page` (src/packages/bindings/src/state.rs). -/
def remove_page (st : TakeoffStateHandler) (page_id : String) :
    Option Page × TakeoffStateHandler :=
  (lookupA st.pages page_id, { st with pages := removeA st.pages page_id })

end TakeoffStateHandler

/-- The filter of `get_measurements_by_group_id` (and of `remove_group`'s
`to_remove` collection): each entry's `get_group_id()` may panic on a poisoned
measurement lock; matching keys are collected in map order. -/
def collectGroupMembers (group_id : String) :
    List (String × MeasurementWrapper) → POut (List String)
  | [] => .ok []
  | (k, w) :: rest => do
    let g ← w.get_group_id
    let r ← collectGroupMembers group_id rest
    pure (if g == group_id then k :: r else r)

/-- The filter of `get_measurements_by_page_id` / `compute_page`: each entry's
`page_id()` may panic on a poisoned measurement lock. -/
def collectPageMembers (page_id : String) :
    List (String × MeasurementWrapper) → POut (List String)
  | [] => .ok []
  | (k, w) :: rest => do
    let p ← w.page_id
    let r ← collectPageMembers page_id rest
    pure (if p == page_id then k :: r else r)

/-- `Iterator::reduce(|a, b| a + b)`: `None` on an empty iterator, else the
left fold of `+`. -/
def reduceSum {α : Type} [Add α] : List α → Option α
  | [] => none
  | a :: rest => some (rest.foldl (· + ·) a)

/-- The iteration of `GroupWrapper::calculate_area`
(src/packages/bindings/src/group.rs): `filter_map(|m|
m.get_area_value().unwrap_or(None))` over the member handles, threading the
cache-fill writes of `get_area_value` through the registry. -/
def collectAreas : TakeoffStateHandler → List String → List ℚ × TakeoffStateHandler
  | st, [] => ([], st)
  | st, mid :: rest =>
    match lookupA st.measurements mid with
    | none => collectAreas st rest
    | some w =>
      let (r, w') := w.get_area_value
      let st' := st.updMeas mid (fun _ => w')
      let (vs, st'') := collectAreas st' rest
      match r with
      | .ok (some a) => (a :: vs, st'')
      | _ => (vs, st'')

/-- The loop of `GroupWrapper::calculate_length`
(src/packages/bindings/src/group.rs): fold `Ok(Some(length))` results into the
running optional sum, threading the cache-fill writes of `get_length_value`. -/
noncomputable def groupLengthFold :
    TakeoffStateHandler → List String → Option ℝ → Option ℝ × TakeoffStateHandler
  | st, [], length_opt => (length_opt, st)
  | st, mid :: rest, length_opt =>
    match lookupA st.measurements mid with
    | none => groupLengthFold st rest length_opt
    | some w =>
      let (r, w') := w.get_length_value
      let st' := st.updMeas mid (fun _ => w')
      match r with
      | .ok (some length) =>
        groupLengthFold st' rest
          (some (match length_opt with | some acc => acc + length | none => length))
      | _ => groupLengthFold st' rest length_opt

/-- `GroupWrapper::calculate_points` (src/packages/bindings/src/group.rs):
`map(get_points).reduce(+)` — a pure read, no locks. -/
def groupPoints (st : TakeoffStateHandler) (members : List String) : Option ℚ :=
  reduceSum (members.filterMap
    (fun mid => (lookupA st.measurements mid).map MeasurementWrapper.get_points))

/-- `GroupWrapper::recompute_measurements` (src/packages/bindings/src/group.rs)
on a group wrapper `g`, against registry `st`: fetch the member handles, then
for each of the four cells evaluate the aggregate (the Rust assignment's
right-hand side, which performs the member cache fills) before acquiring the
cell's lock; a poisoned cell surfaces as a `PoisonError` and leaves that cell
and the following ones unwritten. -/
noncomputable def GroupWrapper.recompute_measurements (st : TakeoffStateHandler)
    (g : GroupWrapper) :
    POut (TakeoffResult PUnit × GroupWrapper × TakeoffStateHandler) := do
  let members ← collectGroupMembers g.id st.measurements
  let (areaVals, st₁) := collectAreas st members
  if g.area.poisoned then
    pure (.error (.poisonError "area"), g, st₁)
  else
    let g₁ := { g with area := { g.area with val := reduceSum areaVals } }
    let (lenVal, st₂) := groupLengthFold st₁ members none
    if g.length.poisoned then
      pure (.error (.poisonError "length"), g₁, st₂)
    else
      let g₂ := { g₁ with length := { g₁.length with val := lenVal } }
      let pts := groupPoints st₂ members
      if g.points.poisoned then
        pure (.error (.poisonError "points"), g₂, st₂)
      else
        let g₃ := { g₂ with points := { g₂.points with val := pts } }
        if g.count.poisoned then
          pure (.error (.poisonError "count"), g₃, st₂)
        else
          let g₄ := { g₃ with count := { g₃.count with val := some (members.length : ℚ) } }
          pure (.ok PUnit.unit, g₄, st₂)

namespace TakeoffStateHandler

/-- `TakeoffStateHandler::compute_group` (src/packages/bindings/src/state.rs,
native variant): when the group exists, dispatch its recompute to a scoped
worker and join; the recompute's `Result` is discarded (`let _ = ...`), while
a panic in the worker is rethrown on join. -/
noncomputable def compute_group (st : TakeoffStateHandler) (group_id : String) :
    POut TakeoffStateHandler := do
  match lookupA st.groups group_id with
  | none => pure st
  | some g => do
    let (_, g', st') ← GroupWrapper.recompute_measurements st g
    pure { st' with groups := insertA st'.groups group_id g' }

/-- `MeasurementWrapper::recompute_measurements`
(src/packages/bindings/src/measurement.rs) for the wrapper at `mid`: compute
and store the area, then the length (right-hand side before each cell lock),
then fire the owning group's recompute, whose `Result` is discarded. -/
noncomputable def recompute_measurements (st : TakeoffStateHandler) (mid : String) :
    POut (TakeoffResult PUnit × TakeoffStateHandler) :=
  match lookupA st.measurements mid with
  | none => .ok (.ok PUnit.unit, st)
  | some w =>
    match w.calculate_area with
    | .error e => .ok (.error e, st)
    | .ok areaVal =>
      if w.area.poisoned then .ok (.error (.poisonError "area"), st)
      else
        let st₁ := st.updMeas mid
          (fun w0 => { w0 with area := { w0.area with val := areaVal } })
        let w₁ := { w with area := { w.area with val := areaVal } }
        match w₁.calculate_length with
        | .error e => .ok (.error e, st₁)
        | .ok lenVal =>
          if w₁.length.poisoned then .ok (.error (.poisonError "length"), st₁)
          else
            let st₂ := st₁.updMeas mid
              (fun w0 => { w0 with length := { w0.length with val := lenVal } })
            match w₁.get_group_id with
            | .panic => .panic
            | .ok gid => do
              let st₃ ← st₂.compute_group gid
              pure (.ok PUnit.unit, st₃)

/-- `MeasurementWrapper::set_scale` (src/packages/bindings/src/measurement.rs)
for the wrapper at `mid`: `.expect(...)` on the scale lock (panic when
poisoned), store the scale, then recompute with the recompute's errors
ignored. -/
noncomputable def set_scale (st : TakeoffStateHandler) (mid : String) (scale : Scale) :
    POut TakeoffStateHandler :=
  match lookupA st.measurements mid with
  | none => .ok st
  | some w =>
    if w.scale.poisoned then .panic
    else do
      let st₁ := st.updMeas mid
        (fun w0 => { w0 with scale := { w0.scale with val := some scale } })
      let (_, st₂) ← st₁.recompute_measurements mid
      pure st₂

/-- `MeasurementWrapper::set_measurement`
(src/packages/bindings/src/measurement.rs) for the wrapper at `mid`:
`.expect(...)` on the measurement lock, swap the geometry in place, then
recompute with the recompute's errors ignored.  The `points` field is not
touched. -/
noncomputable def set_measurement (st : TakeoffStateHandler) (mid : String)
    (measurement : Measurement) : POut TakeoffStateHandler :=
  match lookupA st.measurements mid with
  | none => .ok st
  | some w =>
    if w.measurement.poisoned then .panic
    else do
      let st₁ := st.updMeas mid
        (fun w0 => { w0 with measurement := { w0.measurement with val := measurement } })
      let (_, st₂) ← st₁.recompute_measurements mid
      pure st₂

/-- `MeasurementWrapper::calculate_scale`
(src/packages/bindings/src/measurement.rs) for the wrapper at `mid`: `None`
on a poisoned measurement lock (`.ok()?`) or invalid geometry; otherwise run
the resolver loop over the page's scales and, when it selects a scale, store
it through `set_scale` before returning it. -/
noncomputable def calculate_scale (st : TakeoffStateHandler) (mid : String) :
    POut (Option Scale × TakeoffStateHandler) :=
  match lookupA st.measurements mid with
  | none => .ok (none, st)
  | some w =>
    if w.measurement.poisoned then .ok (none, st)
    else
      match w.measurement.val.to_geometry with
      | .error _ => .ok (none, st)
      | .ok geometry =>
        match scaleLoop geometry (st.get_page_scales w.measurement.val.page_id) none with
        | some s => do
          let st' ← st.set_scale mid s
          pure (some s, st')
        | none => .ok (none, st)

/-- `TakeoffStateHandler::compute_measurement`
(src/packages/bindings/src/state.rs, native variant): dispatch
`calculate_scale` to a scoped worker and join. -/
noncomputable def compute_measurement (st : TakeoffStateHandler) (measurement_id : String) :
    POut TakeoffStateHandler := do
  let (_, st') ← st.calculate_scale measurement_id
  pure st'

end TakeoffStateHandler

/-- The `for measurement in measurements { measurement.calculate_scale(); }`
loop of `TakeoffStateHandler::compute_page`. -/
noncomputable def calcScaleFold : TakeoffStateHandler → List String → POut TakeoffStateHandler
  | st, [] => .ok st
  | st, mid :: rest => do
    let (_, st') ← st.calculate_scale mid
    calcScaleFold st' rest

namespace TakeoffStateHandler

/-- `TakeoffStateHandler::compute_page` (src/packages/bindings/src/state.rs):
snapshot the handles of the page's measurements, then re-run the scale
resolver on each. -/
noncomputable def compute_page (st : TakeoffStateHandler) (page_id : String) :
    POut TakeoffStateHandler := do
  let ids ← collectPageMembers page_id st.measurements
  calcScaleFold st ids

/-- `TakeoffStateHandler::upsert_group` (src/packages/bindings/src/state.rs):
build a fresh `GroupWrapper` (whose constructor runs an initial recompute,
errors ignored) and insert it, returning a clone of the group. -/
noncomputable def upsert_group (st : TakeoffStateHandler) (group : Group) :
    POut (Option Group × TakeoffStateHandler) := do
  let (_, gw, st₁) ← GroupWrapper.recompute_measurements st (GroupWrapper.new group)
  pure (some group, { st₁ with groups := insertA st₁.groups group.id gw })

/-- `TakeoffStateHandler::remove_measurement`
(src/packages/bindings/src/state.rs): remove the entry, recompute the former
group's aggregate (errors ignored), and return the removed geometry. -/
noncomputable def remove_measurement (st : TakeoffStateHandler) (measurement_id : String) :
    POut (Option Measurement × TakeoffStateHandler) :=
  match lookupA st.measurements measurement_id with
  | none => .ok (none, st)
  | some w => do
    let st₁ := { st with measurements := removeA st.measurements measurement_id }
    let gid ← w.get_group_id
    let st₂ ← st₁.compute_group gid
    let m ← w.get_measurement
    pure (some m, st₂)

end TakeoffStateHandler

/-- The `for mid in to_remove { self.remove_measurement(mid); }` loop of
`TakeoffStateHandler::remove_group`. -/
noncomputable def removeMeasFold : TakeoffStateHandler → List String → POut TakeoffStateHandler
  | st, [] => .ok st
  | st, mid :: rest => do
    let (_, st') ← st.remove_measurement mid
    removeMeasFold st' rest

namespace TakeoffStateHandler

/-- `TakeoffStateHandler::remove_group` (src/packages/bindings/src/state.rs):
remove the group, then remove every measurement whose `group_id` matches
(each removal triggering its own cascade), returning the removed group. -/
noncomputable def remove_group (st : TakeoffStateHandler) (group_id : String) :
    POut (Option Group × TakeoffStateHandler) :=
  match lookupA st.groups group_id with
  | none => .ok (none, st)
  | some g => do
    let st₁ := { st with groups := removeA st.groups group_id }
    let to_remove ← collectGroupMembers group_id st₁.measurements
    let st₂ ← removeMeasFold st₁ to_remove
    pure (some g.get_group, st₂)

/-- `TakeoffStateHandler::upsert_measurement`
(src/packages/bindings/src/state.rs): when the id exists, swap the geometry in
place through the held handle and return the (now-updated) stored geometry;
otherwise insert a fresh wrapper, resolve its scale, recompute its group, and
return `None` (the fresh insert had no previous value). -/
noncomputable def upsert_measurement (st : TakeoffStateHandler) (measurement : Measurement) :
    POut (Option Measurement × TakeoffStateHandler) :=
  match lookupA st.measurements measurement.id with
  | some _ => do
    let st₁ ← st.set_measurement measurement.id measurement
    match lookupA st₁.measurements measurement.id with
    | some prev => do
      let m ← prev.get_measurement
      pure (some m, st₁)
    | none => pure (none, st₁)
  | none => do
    let st₁ := { st with
      measurements := insertA st.measurements measurement.id
        (MeasurementWrapper.new measurement) }
    let st₂ ← st₁.compute_measurement measurement.id
    let st₃ ← st₂.compute_group measurement.group_id
    pure (none, st₃)

/-- `TakeoffStateHandler::upsert_scale` (src/packages/bindings/src/state.rs):
insert/replace by id, then re-resolve every measurement on the scale's page. -/
noncomputable def upsert_scale (st : TakeoffStateHandler) (scale : Scale) :
    POut (Option Scale × TakeoffStateHandler) := do
  let page_id := scale.page_id
  let res := lookupA st.scales scale.id
  let st₁ := { st with scales := insertA st.scales scale.id scale }
  let st₂ ← st₁.compute_page page_id
  pure (res, st₂)

/-- `TakeoffStateHandler::remove_scale` (src/packages/bindings/src/state.rs):
delete by id, then re-resolve every measurement on the removed scale's page. -/
noncomputable def remove_scale (st : TakeoffStateHandler) (scale_id : String) :
    POut (Option Scale × TakeoffStateHandler) :=
  match lookupA st.scales scale_id with
  | none => .ok (none, st)
  | some scale => do
    let st₁ := { st with scales := removeA st.scales scale_id }
    let st₂ ← st₁.compute_page scale.page_id
    pure (some scale, st₂)

end TakeoffStateHandler

/-! ## Spec-side characterisations

Independent formulations of the derived quantities, used to state the claims
without merely unfolding the implementation. -/

/-- The shoelace cross term of one directed edge. -/
def cross (p q : Point) : ℚ := p.x * q.y - q.x * p.y

/-- Euclidean edge lengths of the open chain `p₀p₁, p₁p₂, …` (no closing
edge), as consecutive pairs. -/
noncomputable def chainLengths (ps : List Point) : ℝ :=
  ((ps.zip ps.tail).map (fun pq => pq.1.distance_to pq.2)).sum

theorem cross_self (p : Point) : cross p p = 0 := by
  simp [cross, mul_comm]

theorem twiceSignedArea_eq_zipTail (l : List Point) :
    twiceSignedArea l = ((l.zip l.tail).map (fun pq => cross pq.1 pq.2)).sum := by
  induction l with
  | nil => simp [twiceSignedArea]
  | cons a t ih =>
    cases t with
    | nil => simp [twiceSignedArea]
    | cons b t' =>
      simp only [twiceSignedArea, List.zip_cons_cons, List.tail_cons, List.map_cons,
        List.sum_cons, cross] at ih ⊢
      rw [ih]

theorem getLastD_of_ne_nil {l : List Point} (h : l ≠ []) (d d' : Point) :
    l.getLastD d = l.getLastD d' := by
  cases l with
  | nil => exact absurd rfl h
  | cons a t => rw [List.getLastD_cons, List.getLastD_cons]

theorem twiceSignedArea_cons₂ (p q : Point) (rest : List Point) :
    twiceSignedArea (p :: q :: rest) = cross p q + twiceSignedArea (q :: rest) := rfl

theorem twiceSignedArea_append_singleton (l : List Point) (q : Point) :
    twiceSignedArea (l ++ [q]) = twiceSignedArea l + cross (l.getLastD q) q := by
  induction l with
  | nil => simp [twiceSignedArea, cross_self]
  | cons a t ih =>
    cases t with
    | nil => simp [twiceSignedArea, List.getLastD_cons, cross]
    | cons b t' =>
      calc twiceSignedArea ((a :: b :: t') ++ [q])
          = cross a b + twiceSignedArea ((b :: t') ++ [q]) := rfl
        _ = cross a b + (twiceSignedArea (b :: t') + cross ((b :: t').getLastD q) q) := by
            rw [ih]
        _ = twiceSignedArea (a :: b :: t') + cross ((a :: b :: t').getLastD q) q := by
            rw [twiceSignedArea_cons₂, List.getLastD_cons q a (b :: t'),
              getLastD_of_ne_nil (l := b :: t') (by simp) a q]
            ring

theorem twiceSignedArea_closeRing (ps : List Point) (h : ps ≠ []) :
    twiceSignedArea (closeRing ps)
      = ((ps.zip ps.tail).map (fun pq => cross pq.1 pq.2)).sum
        + cross (ps.getLastD default) (ps.headD default) := by
  cases ps with
  | nil => exact absurd rfl h
  | cons p rest =>
    have hcr : closeRing (p :: rest)
        = if (p :: rest).getLast? = some p then p :: rest else (p :: rest) ++ [p] := rfl
    by_cases hc : (p :: rest).getLast? = some p
    · rw [hcr, if_pos hc, twiceSignedArea_eq_zipTail]
      have hlast : (p :: rest).getLastD default = p := by
        rw [List.getLastD_eq_getLast?, hc, Option.getD_some]
      have hhead : (p :: rest).headD default = p := rfl
      rw [hlast, hhead, cross_self, add_zero]
    · rw [hcr, if_neg hc, twiceSignedArea_append_singleton,
        twiceSignedArea_eq_zipTail,
        getLastD_of_ne_nil (l := p :: rest) (by simp) p default]
      simp

/-- `Measurement::pixel_area` on a valid polygon is the unsigned shoelace
area: half the absolute value of the cross-term sum over the consecutive
edges together with the closing edge from the last point back to the first. -/
theorem pixel_area_polygon (i pg g : String) (ps : List Point) (h : 3 ≤ ps.length) :
    Measurement.pixel_area (.polygon i pg g ps)
      = .ok (|((ps.zip ps.tail).map (fun pq => cross pq.1 pq.2)).sum
              + cross (ps.getLastD default) (ps.headD default)| / 2) := by
  have hne : ps ≠ [] := by
    cases ps
    · simp at h
    · simp
  have hval : (Measurement.polygon i pg g ps).validate = .ok PUnit.unit := by
    simp [Measurement.validate, Nat.not_lt.mpr h]
  simp [Measurement.pixel_area, Measurement.to_polygon, hval, ringUnsignedArea,
    twiceSignedArea_closeRing ps hne]

/-- `Measurement::pixel_area` on a valid (non-degenerate) rectangle is
`|Δx| * |Δy|`. -/
theorem pixel_area_rectangle (i pg g : String) (p1 p2 : Point)
    (h : ¬(|p1.x - p2.x| < epsF64 ∧ |p1.y - p2.y| < epsF64)) :
    Measurement.pixel_area (.rectangle i pg g p1 p2)
      = .ok (|p2.x - p1.x| * |p2.y - p1.y|) := by
  have hval : (Measurement.rectangle i pg g p1 p2).validate = .ok PUnit.unit := by
    simp only [Measurement.validate]
    rw [if_neg h]
    rfl
  have harea : twiceSignedArea (rectRing p1 p2)
      = 2 * ((max p1.x p2.x - min p1.x p2.x) * (max p1.y p2.y - min p1.y p2.y)) := by
    simp only [rectRing, twiceSignedArea, cross]
    ring
  have habs : ringUnsignedArea (rectRing p1 p2)
      = |p2.x - p1.x| * |p2.y - p1.y| := by
    rw [ringUnsignedArea, harea]
    have hx : (0 : ℚ) ≤ max p1.x p2.x - min p1.x p2.x := by
      simp [min_le_max]
    have hy : (0 : ℚ) ≤ max p1.y p2.y - min p1.y p2.y := by
      simp [min_le_max]
    have h2 : (0 : ℚ)
        ≤ 2 * ((max p1.x p2.x - min p1.x p2.x) * (max p1.y p2.y - min p1.y p2.y)) := by
      have := mul_nonneg hx hy
      linarith
    rw [abs_of_nonneg h2, max_sub_min_eq_abs, max_sub_min_eq_abs]
    ring
  simp [Measurement.pixel_area, Measurement.to_polygon, hval, habs]

/-- `Measurement::pixel_area` on a `Count` is an `EmptyGeometry` error, not 0:
`to_polygon` rejects counts. -/
theorem pixel_area_count (i pg g : String) (p : Point) :
    Measurement.pixel_area (.count i pg g p)
      = .error (.emptyGeometry "measurement cannot be converted to polygon") := rfl

/-- `Measurement::pixel_area` on a valid polyline is an `EmptyGeometry`
error, not 0: `to_polygon` rejects polylines. -/
theorem pixel_area_polyline (i pg g : String) (ps : List Point) (h : 2 ≤ ps.length) :
    Measurement.pixel_area (.polyline i pg g ps)
      = .error (.emptyGeometry "measurement cannot be converted to polygon") := by
  have hval : (Measurement.polyline i pg g ps).validate = .ok PUnit.unit := by
    simp [Measurement.validate, Nat.not_lt.mpr h]
  simp [Measurement.pixel_area, Measurement.to_polygon, hval]

/-- An under-specified polygon (fewer than 3 points) fails `pixel_area` with
the validation error. -/
theorem pixel_area_polygon_invalid (i pg g : String) (ps : List Point)
    (h : ps.length < 3) :
    Measurement.pixel_area (.polygon i pg g ps)
      = .error (.emptyGeometry
          ("polygon must have at least 3 points, got " ++ toString ps.length)) := by
  simp [Measurement.pixel_area, Measurement.to_polygon, Measurement.validate, h]

/-- A degenerate rectangle (both coordinate deltas below `f64::EPSILON`)
fails `pixel_area` with the validation error. -/
theorem pixel_area_rectangle_degenerate (i pg g : String) (p1 p2 : Point)
    (h : |p1.x - p2.x| < epsF64 ∧ |p1.y - p2.y| < epsF64) :
    Measurement.pixel_area (.rectangle i pg g p1 p2)
      = .error (.emptyGeometry "rectangle corners must be distinct points") := by
  simp only [Measurement.pixel_area, Measurement.to_polygon, Measurement.validate]
  rw [if_pos h]
  rfl

theorem perimOpen_nil : perimOpen [] = 0 := by
  simp [perimOpen]

theorem perimOpen_singleton (a : Point) : perimOpen [a] = 0 := by
  simp [perimOpen]

theorem perimOpen_cons₂ (a b : Point) (l : List Point) :
    perimOpen (a :: b :: l) = a.distance_to b + perimOpen (b :: l) := by
  simp only [perimOpen, List.length_cons, Nat.add_sub_cancel, List.range_succ_eq_map,
    List.map_cons, List.sum_cons, List.map_map, List.getD_cons_zero, List.getD_cons_succ]
  rfl

theorem perimOpen_eq_chainLengths (ps : List Point) :
    perimOpen ps = chainLengths ps := by
  induction ps with
  | nil => simp [perimOpen_nil, chainLengths]
  | cons a t ih =>
    cases t with
    | nil => simp [perimOpen_singleton, chainLengths]
    | cons b t' =>
      rw [perimOpen_cons₂, ih]
      simp [chainLengths]

theorem getD_length_sub_one (ps : List Point) (h : ps ≠ []) :
    ps.getD (ps.length - 1) default = ps.getLastD default := by
  induction ps with
  | nil => exact absurd rfl h
  | cons a t ih =>
    cases t with
    | nil => rfl
    | cons b t' =>
      have h1 : (a :: b :: t').length - 1 = (b :: t').length - 1 + 1 := by
        simp
      rw [h1, List.getD_cons_succ, ih (by simp), List.getLastD_cons default a (b :: t'),
        getLastD_of_ne_nil (l := b :: t') (by simp) default a]

/-- The closed-ring edge sum is the open chain plus the closing edge from the
last point back to the first. -/
theorem perimClosed_eq_open_add_closing (ps : List Point) (h : ps ≠ []) :
    perimClosed ps
      = perimOpen ps + (ps.getLastD default).distance_to (ps.headD default) := by
  obtain ⟨m, hm⟩ : ∃ m, ps.length = m + 1 := by
    cases hl : ps.length with
    | zero => exact absurd (List.length_eq_zero.mp hl) h
    | succ m => exact ⟨m, rfl⟩
  rw [perimClosed, perimOpen, hm]
  rw [List.range_succ, List.map_append, List.sum_append]
  have hcong : (List.range m).map
        (fun i => (ps.getD i default).distance_to (ps.getD ((i + 1) % (m + 1)) default))
      = (List.range m).map
        (fun i => (ps.getD i default).distance_to (ps.getD (i + 1) default)) := by
    refine List.map_congr_left (fun i hi => ?_)
    have hmod : (i + 1) % (m + 1) = i + 1 := by
      have := List.mem_range.mp hi
      exact Nat.mod_eq_of_lt (by omega)
    rw [hmod]
  have hlast : ps.getD m default = ps.getLastD default := by
    rw [← getD_length_sub_one ps h, hm]
    simp
  have hhead : ps.getD ((m + 1) % (m + 1)) default = ps.headD default := by
    rw [Nat.mod_self]
    cases ps with
    | nil => exact absurd rfl h
    | cons a t => rfl
  rw [hcong]
  simp only [List.map_cons, List.map_nil, List.sum_cons, List.sum_nil, add_zero,
    Nat.add_sub_cancel, hlast, hhead]

theorem distance_to_self (p : Point) : p.distance_to p = 0 := by
  simp [Point.distance_to]

/-- `pixel_perimeter` on a count is 0 (that much of the spec is exact). -/
theorem pixel_perimeter_count (i pg g : String) (p : Point) :
    Measurement.pixel_perimeter (.count i pg g p) = .ok 0 := rfl

/-- `pixel_perimeter` on a valid polygon: open chain plus the closing edge
from the last raw point back to the first. -/
theorem pixel_perimeter_polygon (i pg g : String) (ps : List Point) (h : 3 ≤ ps.length) :
    Measurement.pixel_perimeter (.polygon i pg g ps)
      = .ok (chainLengths ps
          + (ps.getLastD default).distance_to (ps.headD default)) := by
  have hne : ps ≠ [] := by
    cases ps
    · simp at h
    · simp
  have hval : (Measurement.polygon i pg g ps).validate = .ok PUnit.unit := by
    simp [Measurement.validate, Nat.not_lt.mpr h]
  simp [Measurement.pixel_perimeter, hval, perimClosed_eq_open_add_closing ps hne,
    perimOpen_eq_chainLengths]

/-- `pixel_perimeter` on a valid rectangle: the closed-ring edge sum over the
5-point exterior ring (open chain plus closing edge). -/
theorem pixel_perimeter_rectangle (i pg g : String) (p1 p2 : Point)
    (h : ¬(|p1.x - p2.x| < epsF64 ∧ |p1.y - p2.y| < epsF64)) :
    Measurement.pixel_perimeter (.rectangle i pg g p1 p2)
      = .ok (chainLengths (rectRing p1 p2)
          + ((rectRing p1 p2).getLastD default).distance_to
              ((rectRing p1 p2).headD default)) := by
  have hval : (Measurement.rectangle i pg g p1 p2).validate = .ok PUnit.unit := by
    simp only [Measurement.validate]
    rw [if_neg h]
    rfl
  have hne : rectRing p1 p2 ≠ [] := by simp [rectRing]
  simp [Measurement.pixel_perimeter, Measurement.to_polygon, hval,
    perimClosed_eq_open_add_closing _ hne, perimOpen_eq_chainLengths]

/-- `pixel_perimeter` on a valid polyline: the open chain only — no closing
edge. -/
theorem pixel_perimeter_polyline (i pg g : String) (ps : List Point) (h : 2 ≤ ps.length) :
    Measurement.pixel_perimeter (.polyline i pg g ps) = .ok (chainLengths ps) := by
  have hval : (Measurement.polyline i pg g ps).validate = .ok PUnit.unit := by
    simp [Measurement.validate, Nat.not_lt.mpr h]
  simp [Measurement.pixel_perimeter, hval, perimOpen_eq_chainLengths]

/-- The spec's polyline example: `Polyline([(0,0),(1,0)]).rawPerimeter() == 1.0`. -/
theorem pixel_perimeter_polyline_example :
    Measurement.pixel_perimeter (.polyline "1" "1" "1" [⟨0, 0⟩, ⟨1, 0⟩]) = .ok 1 := by
  rw [pixel_perimeter_polyline "1" "1" "1" [⟨0, 0⟩, ⟨1, 0⟩] (by decide)]
  have h1 : (⟨0, 0⟩ : Point).distance_to ⟨1, 0⟩ = 1 := by
    simp only [Point.distance_to]
    norm_num
  simp [chainLengths, h1]

/-- The spec's two-point polygon example: `EmptyGeometry` (needs ≥ 3). -/
theorem pixel_perimeter_polygon_two_points :
    Measurement.pixel_perimeter (.polygon "1" "1" "1" [⟨0, 0⟩, ⟨1, 0⟩])
      = .error (.emptyGeometry "polygon must have at least 3 points, got 2") := by
  simp [Measurement.pixel_perimeter, Measurement.validate]
  rfl

/-- First-`some` choice (spec-side shorthand for the resolver precedence). -/
def orD {α : Type} (x y : Option α) : Option α :=
  match x with
  | some a => some a
  | none => y

/-- Spec side: the first `Area` scale (in iteration order) whose bounding-box
polygon contains the geometry. -/
def firstAreaMatch (geometry : Geometry) (scales : List Scale) : Option Scale :=
  scales.find? (fun s => s.isArea && s.is_in_bounding_box geometry)

/-- Spec side: the last `Default` scale seen during iteration. -/
def lastDefault (scales : List Scale) : Option Scale :=
  (scales.filter (fun s => !s.isArea)).getLast?

theorem is_in_bounding_box_of_not_area {s : Scale} (h : s.isArea = false)
    (g : Geometry) : s.is_in_bounding_box g = false := by
  cases s with
  | area _ _ _ _ => simp [Scale.isArea] at h
  | dflt _ _ _ => rfl

theorem getLast?_cons_orD {α : Type} (a : α) (l : List α) :
    (a :: l).getLast? = orD l.getLast? (some a) := by
  cases l with
  | nil => rfl
  | cons b t =>
    rw [List.getLast?_cons_cons]
    have : (b :: t).getLast?.isSome := List.getLast?_isSome.mpr (by simp)
    cases h : (b :: t).getLast? with
    | none => rw [h] at this; simp at this
    | some x => rfl

/-- The resolver loop returns the first containing `Area` scale, else the
last `Default`, else the accumulator. -/
theorem scaleLoop_eq (g : Geometry) (scales : List Scale) (acc : Option Scale) :
    scaleLoop g scales acc
      = orD (firstAreaMatch g scales) (orD (lastDefault scales) acc) := by
  induction scales generalizing acc with
  | nil => rfl
  | cons s rest ih =>
    by_cases hA : s.isArea = true
    · by_cases hin : s.is_in_bounding_box g = true
      · have hf : firstAreaMatch g (s :: rest) = some s := by
          simp [firstAreaMatch, List.find?_cons, hA, hin]
        simp [scaleLoop, hA, hin, hf, orD]
      · have hin' : s.is_in_bounding_box g = false := by
          simpa using hin
        have hf : firstAreaMatch g (s :: rest) = firstAreaMatch g rest := by
          simp [firstAreaMatch, List.find?_cons, hin']
        have hl : lastDefault (s :: rest) = lastDefault rest := by
          simp [lastDefault, hA]
        simp [scaleLoop, hA, hin', hf, hl, ih]
    · have hA' : s.isArea = false := by simpa using hA
      have hin' : s.is_in_bounding_box g = false := is_in_bounding_box_of_not_area hA' g
      have hf : firstAreaMatch g (s :: rest) = firstAreaMatch g rest := by
        simp [firstAreaMatch, List.find?_cons, hA']
      have hl : lastDefault (s :: rest) = orD (lastDefault rest) (some s) := by
        simp only [lastDefault, List.filter_cons, hA']
        rw [show (!false) = true from rfl]
        simp only [if_pos rfl]
        exact getLast?_cons_orD s _
      rw [scaleLoop, if_neg (by simp [hA']), ih (some s), hf, hl]
      cases hfa : firstAreaMatch g rest with
      | some t => rfl
      | none =>
        cases hld : lastDefault rest with
        | some t => rfl
        | none => rfl

/-! ## Claim C8 — raw perimeter by measurement kind -/

/-- C8: the raw perimeter is 0 for `Count`; for valid `Polygon`s and
`Rectangle`s it is the consecutive-edge sum including the closing edge
(last point back to first, the `(i+1) mod n` wrap) — for rectangles over the
5-point exterior ring; for valid `Polyline`s it is the open-chain sum with no
closing edge; in particular `Polyline [(0,0),(1,0)]` has raw perimeter
exactly 1.0, while a `Polygon` with the same 2 points is an `EmptyGeometry`
error. -/
theorem c8_raw_perimeter_by_kind :
    (∀ i pg g p, Measurement.pixel_perimeter (.count i pg g p) = .ok 0)
  ∧ (∀ i pg g ps, 3 ≤ ps.length →
      Measurement.pixel_perimeter (.polygon i pg g ps)
        = .ok (chainLengths ps
            + (ps.getLastD default).distance_to (ps.headD default)))
  ∧ (∀ i pg g p1 p2, ¬(|p1.x - p2.x| < epsF64 ∧ |p1.y - p2.y| < epsF64) →
      Measurement.pixel_perimeter (.rectangle i pg g p1 p2)
        = .ok (chainLengths (rectRing p1 p2)
            + ((rectRing p1 p2).getLastD default).distance_to
                ((rectRing p1 p2).headD default)))
  ∧ (∀ i pg g ps, 2 ≤ ps.length →
      Measurement.pixel_perimeter (.polyline i pg g ps) = .ok (chainLengths ps))
  ∧ Measurement.pixel_perimeter (.polyline "1" "1" "1" [⟨0, 0⟩, ⟨1, 0⟩]) = .ok 1
  ∧ Measurement.pixel_perimeter (.polygon "1" "1" "1" [⟨0, 0⟩, ⟨1, 0⟩])
      = .error (.emptyGeometry "polygon must have at least 3 points, got 2") :=
  ⟨pixel_perimeter_count, pixel_perimeter_polygon, pixel_perimeter_rectangle,
    pixel_perimeter_polyline, pixel_perimeter_polyline_example,
    pixel_perimeter_polygon_two_points⟩

theorem sqrt_rat_sq (a : ℚ) (h : 0 ≤ a) : Real.sqrt ((a * a : ℚ) : ℝ) = (a : ℝ) := by
  push_cast
  rw [show ((a : ℝ) * a) = (a : ℝ) ^ 2 by ring, Real.sqrt_sq (by exact_mod_cast h)]

/-- C8 witness: the theorem applied at the spec's rectangle (0,0)–(100,50),
whose ring edge sum evaluates to 300. -/
theorem c8_raw_perimeter_by_kind_witness :
    Measurement.pixel_perimeter (.rectangle "1" "1" "1" ⟨0, 0⟩ ⟨100, 50⟩)
      = .ok 300 := by
  have h := c8_raw_perimeter_by_kind.2.2.1 "1" "1" "1" ⟨0, 0⟩ ⟨100, 50⟩
    (by norm_num [epsF64])
  rw [h]
  have hring : rectRing (⟨0, 0⟩ : Point) ⟨100, 50⟩
      = [⟨0, 0⟩, ⟨100, 0⟩, ⟨100, 50⟩, ⟨0, 50⟩, ⟨0, 0⟩] := by
    simp [rectRing]
  rw [hring]
  have d1 : (⟨0, 0⟩ : Point).distance_to ⟨100, 0⟩ = 100 := by
    simp only [Point.distance_to]
    norm_num
    rw [show (10000 : ℝ) = (100 : ℝ) ^ 2 by norm_num, Real.sqrt_sq (by norm_num)]
  have d2 : (⟨100, 0⟩ : Point).distance_to ⟨100, 50⟩ = 50 := by
    simp only [Point.distance_to]
    norm_num
    rw [show (2500 : ℝ) = (50 : ℝ) ^ 2 by norm_num, Real.sqrt_sq (by norm_num)]
  have d3 : (⟨100, 50⟩ : Point).distance_to ⟨0, 50⟩ = 100 := by
    simp only [Point.distance_to]
    norm_num
    rw [show (10000 : ℝ) = (100 : ℝ) ^ 2 by norm_num, Real.sqrt_sq (by norm_num)]
  have d4 : (⟨0, 50⟩ : Point).distance_to ⟨0, 0⟩ = 50 := by
    simp only [Point.distance_to]
    norm_num
    rw [show (2500 : ℝ) = (50 : ℝ) ^ 2 by norm_num, Real.sqrt_sq (by norm_num)]
  have hclose : ((⟨0, 0⟩ : Point)).distance_to ⟨0, 0⟩ = 0 := distance_to_self _
  simp [chainLengths, List.getLastD, d1, d2, d3, d4, hclose]
  norm_num

/-! ## Claim C5 — scaled area/length derivation on the cache cell -/

theorem convert_area_to_unit_get_area_unit (u : Unit) (v : ℚ) :
    u.convert_area_to_unit (u.get_area_unit v) = v := by
  simp only [Unit.convert_area_to_unit, Unit.areaGet, Unit.get_area_unit]
  exact mul_div_cancel_right₀ v (Unit.areaFactor_ne_zero u)

theorem convert_length_to_unit_get_unit (u : Unit) (v : ℝ) :
    u.convert_length_to_unit (u.get_unit v) = v := by
  have h : (u.lengthFactor : ℝ) ≠ 0 := by
    exact_mod_cast u.lengthFactor_ne_zero
  simp only [Unit.convert_length_to_unit, Unit.lengthGet, Unit.get_unit]
  exact mul_div_cancel_right₀ v h

/-- C5: on a measurement cache cell with a healthy scale lock: when a scale
with a valid ratio is assigned and the raw derivation succeeds, the computed
area is `rawArea / ratio²` and the computed length is `rawPerimeter / ratio`,
expressed in the scale's unit (reading the produced quantity back in that
unit recovers exactly those values); when no scale is assigned, the area and
length computations, and the `getArea`/`getLength` getters, yield
`None`/absent — never a pixel-space number and never zero. -/
theorem c5_scaled_values_and_absent_scale :
    (∀ (w : MeasurementWrapper) (s : Scale) (r A : ℚ),
      w.scale.poisoned = false → w.scale.val = some s →
      w.measurement.poisoned = false →
      s.ratio = .ok r → w.measurement.val.pixel_area = .ok A →
      ∃ a, w.calculate_area = .ok (some a)
        ∧ Unit.convert_area_to_unit s.get_unit a = A / (r * r))
  ∧ (∀ (w : MeasurementWrapper) (s : Scale) (r : ℚ) (P : ℝ),
      w.scale.poisoned = false → w.scale.val = some s →
      w.measurement.poisoned = false →
      s.ratio = .ok r → w.measurement.val.pixel_perimeter = .ok P →
      ∃ l, w.calculate_length = .ok (some l)
        ∧ Unit.convert_length_to_unit s.get_unit l = P / (r : ℝ))
  ∧ (∀ (w : MeasurementWrapper),
      w.scale.poisoned = false → w.scale.val = none →
      w.calculate_area = .ok none ∧ w.calculate_length = .ok none
      ∧ (w.area.poisoned = false → w.area.val = none → (w.get_area).1 = none)
      ∧ w.get_length = .ok none) := by
  refine ⟨?_, ?_, ?_⟩
  · intro w s r A hsp hsv hmp hr hA
    refine ⟨s.get_unit.get_area_unit (A / (r * r)), ?_, ?_⟩
    · simp [MeasurementWrapper.calculate_area, lock_mutex, hsp, hsv, hr,
        MeasurementWrapper.raw_area, hmp, hA]
    · exact convert_area_to_unit_get_area_unit s.get_unit (A / (r * r))
  · intro w s r P hsp hsv hmp hr hP
    refine ⟨s.get_unit.get_unit (P / (r : ℝ)), ?_, ?_⟩
    · simp [MeasurementWrapper.calculate_length, lock_mutex, hsp, hsv, hr,
        MeasurementWrapper.raw_perimeter, hmp, hP]
    · exact convert_length_to_unit_get_unit s.get_unit (P / (r : ℝ))
  · intro w hsp hsv
    have hca : w.calculate_area = .ok none := by
      simp [MeasurementWrapper.calculate_area, lock_mutex, hsp, hsv]
    have hcl : w.calculate_length = .ok none := by
      simp [MeasurementWrapper.calculate_length, lock_mutex, hsp, hsv]
    refine ⟨hca, hcl, ?_, ?_⟩
    · intro hap hav
      simp [MeasurementWrapper.get_area, MeasurementWrapper.get_area_value,
        lock_mutex, hap, hav, hca]
    · simp [MeasurementWrapper.get_length, hcl]

/-- C5 witness: the theorem applied at the Rust unit test's inputs — a
(0,0)–(100,50) rectangle under a Default scale of 100 px = 2 m resolves to
an area read back as 2 m² (5000 / 50²), a (0,0)–(1,0) polyline under the same
scale to a length of 1/50 m, and with no scale assigned everything is
absent. -/
theorem c5_scaled_values_witness :
    (∃ a, (MeasurementWrapper.mk
        (LockCell.mk0 (.rectangle "1" "1" "1" ⟨0, 0⟩ ⟨100, 50⟩))
        (LockCell.mk0 (some (.dflt "1" "1" ⟨100, 2, .meters⟩)))
        (LockCell.mk0 none) (LockCell.mk0 none) 4).calculate_area = .ok (some a)
      ∧ Unit.convert_area_to_unit Unit.meters a = 2)
  ∧ (∃ l, (MeasurementWrapper.mk
        (LockCell.mk0 (.polyline "1" "1" "1" [⟨0, 0⟩, ⟨1, 0⟩]))
        (LockCell.mk0 (some (.dflt "1" "1" ⟨100, 2, .meters⟩)))
        (LockCell.mk0 none) (LockCell.mk0 none) 2).calculate_length = .ok (some l)
      ∧ Unit.convert_length_to_unit Unit.meters l = 1 / 50)
  ∧ ((MeasurementWrapper.new (.rectangle "1" "1" "1" ⟨0, 0⟩ ⟨100, 50⟩)).calculate_area
        = .ok none
      ∧ (MeasurementWrapper.new
          (.rectangle "1" "1" "1" ⟨0, 0⟩ ⟨100, 50⟩)).calculate_length = .ok none) := by
  refine ⟨?_, ?_, ?_⟩
  · obtain ⟨a, ha, hc⟩ := c5_scaled_values_and_absent_scale.1
      (MeasurementWrapper.mk
        (LockCell.mk0 (.rectangle "1" "1" "1" ⟨0, 0⟩ ⟨100, 50⟩))
        (LockCell.mk0 (some (.dflt "1" "1" ⟨100, 2, .meters⟩)))
        (LockCell.mk0 none) (LockCell.mk0 none) 4)
      (.dflt "1" "1" ⟨100, 2, .meters⟩) 50 5000 rfl rfl rfl
      (by norm_num [Scale.ratio, ScaleDefinition.ratio, Scale.scaleDef])
      (by show Measurement.pixel_area (.rectangle "1" "1" "1" ⟨0, 0⟩ ⟨100, 50⟩)
            = .ok 5000
          rw [pixel_area_rectangle _ _ _ _ _ (by norm_num [epsF64])]
          norm_num)
    refine ⟨a, ha, ?_⟩
    rw [show (Scale.dflt "1" "1" ⟨100, 2, .meters⟩).get_unit = Unit.meters from rfl] at hc
    rw [hc]
    norm_num
  · obtain ⟨l, hl, hc⟩ := c5_scaled_values_and_absent_scale.2.1
      (MeasurementWrapper.mk
        (LockCell.mk0 (.polyline "1" "1" "1" [⟨0, 0⟩, ⟨1, 0⟩]))
        (LockCell.mk0 (some (.dflt "1" "1" ⟨100, 2, .meters⟩)))
        (LockCell.mk0 none) (LockCell.mk0 none) 2)
      (.dflt "1" "1" ⟨100, 2, .meters⟩) 50 1 rfl rfl rfl
      (by norm_num [Scale.ratio, ScaleDefinition.ratio, Scale.scaleDef])
      pixel_perimeter_polyline_example
    refine ⟨l, hl, ?_⟩
    rw [show (Scale.dflt "1" "1" ⟨100, 2, .meters⟩).get_unit = Unit.meters from rfl] at hc
    rw [hc]
    norm_num
  · have h := c5_scaled_values_and_absent_scale.2.2
      (MeasurementWrapper.new (.rectangle "1" "1" "1" ⟨0, 0⟩ ⟨100, 50⟩)) rfl rfl
    exact ⟨h.1, h.2.1⟩

/-! ## Association-list and state-projection lemmas -/

theorem lookupA_nil {α : Type} (k : String) : lookupA ([] : List (String × α)) k = none := rfl

theorem lookupA_cons {α : Type} (a : String) (v : α) (t : List (String × α)) (k : String) :
    lookupA ((a, v) :: t) k = if a = k then some v else lookupA t k := by
  by_cases h : a = k <;> simp [lookupA, List.find?_cons, h]

theorem lookupA_updateA {α : Type} (l : List (String × α)) (k k' : String) (f : α → α) :
    lookupA (updateA l k f) k' = if k' = k then (lookupA l k').map f else lookupA l k' := by
  induction l with
  | nil =>
    by_cases h : k' = k <;> simp [updateA, lookupA_nil, h]
  | cons kv t ih =>
    obtain ⟨a, v⟩ := kv
    by_cases hak : a = k
    · rw [show updateA ((a, v) :: t) k f = (a, f v) :: t from by
        simp [updateA, beq_iff_eq.mpr hak]]
      by_cases hak' : a = k'
      · have hkk : k' = k := hak'.symm.trans hak
        simp [lookupA_cons, if_pos hak', if_pos hkk]
      · have hne : k' ≠ k := fun hh => hak' (hak.trans hh.symm)
        simp only [lookupA_cons, if_neg hak', if_neg hne]
    · rw [show updateA ((a, v) :: t) k f = (a, v) :: updateA t k f from by
        simp [updateA, show (a == k) = false from by simpa using hak]]
      by_cases hak' : a = k'
      · have hne : k' ≠ k := fun hh => hak (hak'.trans hh)
        simp only [lookupA_cons, if_pos hak', if_neg hne]
      · simp only [lookupA_cons, if_neg hak', ih]

/-- A first-match in-place update whose write does not change the `proj` view
of the entry it touches leaves the `proj` view of the whole map unchanged. -/
theorem map_proj_updateA {α β : Type} (proj : α → β) (l : List (String × α))
    (k : String) (f : α → α)
    (hf : ∀ v, lookupA l k = some v → proj (f v) = proj v) :
    (updateA l k f).map (fun kv => (kv.1, proj kv.2))
      = l.map (fun kv => (kv.1, proj kv.2)) := by
  induction l with
  | nil => rfl
  | cons kv t ih =>
    obtain ⟨a, v⟩ := kv
    by_cases h : a = k
    · have hl : lookupA ((a, v) :: t) k = some v := by
        rw [lookupA_cons, if_pos h]
      rw [show updateA ((a, v) :: t) k f = (a, f v) :: t from by
        simp [updateA, beq_iff_eq.mpr h]]
      simp only [List.map_cons]
      rw [hf v hl]
    · rw [show updateA ((a, v) :: t) k f = (a, v) :: updateA t k f from by
        simp [updateA, show (a == k) = false from by simpa using h]]
      simp only [List.map_cons]
      rw [ih (fun u hu => hf u (by rw [lookupA_cons, if_neg h]; exact hu))]

theorem lookupA_map_proj {α β : Type} (f : α → β) (l : List (String × α)) (k : String) :
    lookupA (l.map (fun kv => (kv.1, f kv.2))) k = (lookupA l k).map f := by
  induction l with
  | nil => rfl
  | cons kv t ih =>
    obtain ⟨a, v⟩ := kv
    by_cases h : a = k
    · simp [List.map_cons, lookupA_cons, h]
    · simp only [List.map_cons]
      rw [lookupA_cons, lookupA_cons, if_neg h, if_neg h, ih]

theorem lookupA_none_iff {α : Type} (l : List (String × α)) (k : String) :
    lookupA l k = none ↔ k ∉ l.map (·.1) := by
  induction l with
  | nil => simp [lookupA_nil]
  | cons kv t ih =>
    obtain ⟨a, v⟩ := kv
    by_cases h : a = k
    · subst h
      simp [lookupA_cons]
    · rw [lookupA_cons, if_neg h]
      simp only [List.map_cons, List.mem_cons]
      rw [ih]
      constructor
      · intro hh hc
        rcases hc with hc | hc
        · exact h hc.symm
        · exact hh hc
      · intro hh
        exact fun hc => hh (Or.inr hc)

theorem lookupA_removeA {α : Type} (l : List (String × α)) (k k' : String) :
    lookupA (removeA l k) k' = if k' = k then none else lookupA l k' := by
  induction l with
  | nil => by_cases h : k' = k <;> simp [removeA, lookupA_nil, h]
  | cons kv t ih =>
    obtain ⟨a, v⟩ := kv
    have hrem : removeA ((a, v) :: t) k
        = if (a != k) = true then (a, v) :: removeA t k else removeA t k := by
      simp [removeA, List.filter_cons]
    by_cases hak : a = k
    · rw [hrem, if_neg (by simp [hak]), ih]
      by_cases h : k' = k
      · rw [if_pos h, if_pos h]
      · rw [if_neg h, if_neg h, lookupA_cons,
          if_neg (fun hh => h (hh.symm.trans hak))]
    · rw [hrem, if_pos (by simp [hak])]
      by_cases hak' : a = k'
      · have hne : k' ≠ k := fun hh => hak (hak'.trans hh)
        rw [lookupA_cons, if_pos hak', if_neg hne, lookupA_cons, if_pos hak']
      · rw [lookupA_cons, if_neg hak', ih]
        by_cases h2 : k' = k
        · rw [if_pos h2, if_pos h2]
        · rw [if_neg h2, if_neg h2, lookupA_cons, if_neg hak']

theorem orD_none_right {α : Type} (x : Option α) : orD x none = x := by
  cases x <;> rfl

theorem lookupA_append {α : Type} (l₁ l₂ : List (String × α)) (k : String) :
    lookupA (l₁ ++ l₂) k = orD (lookupA l₁ k) (lookupA l₂ k) := by
  induction l₁ with
  | nil => rfl
  | cons kv t ih =>
    obtain ⟨a, v⟩ := kv
    rw [List.cons_append, lookupA_cons, lookupA_cons]
    by_cases h : a = k
    · rw [if_pos h, if_pos h]
      rfl
    · rw [if_neg h, if_neg h, ih]

theorem lookupA_replace_map {α : Type} (l : List (String × α)) (k k' : String) (v : α) :
    lookupA (l.map (fun kv => if kv.1 == k then (k, v) else kv)) k'
      = if k' = k then (lookupA l k).map (fun _ => v) else lookupA l k' := by
  induction l with
  | nil => by_cases h : k' = k <;> simp [lookupA, h]
  | cons kv t ih =>
    obtain ⟨a, u⟩ := kv
    rw [List.map_cons]
    by_cases hak : a = k
    · rw [show (if ((a, u).1 == k) = true then (k, v) else (a, u)) = (k, v) from by
        simp [hak]]
      by_cases h : k' = k
      · subst h
        rw [lookupA_cons, if_pos rfl, if_pos rfl, lookupA_cons, if_pos hak]
        rfl
      · rw [lookupA_cons, if_neg (fun hh => h hh.symm), ih, if_neg h, if_neg h,
          lookupA_cons, if_neg (fun hh => h (hak ▸ hh).symm)]
    · rw [show (if ((a, u).1 == k) = true then (k, v) else (a, u)) = (a, u) from by
        simp [hak]]
      by_cases h : k' = k
      · subst h
        rw [lookupA_cons, if_neg hak, ih, if_pos rfl, if_pos rfl, lookupA_cons,
          if_neg hak]
      · rw [if_neg h, lookupA_cons, lookupA_cons]
        by_cases hak' : a = k'
        · rw [if_pos hak', if_pos hak']
        · rw [if_neg hak', if_neg hak', ih, if_neg h]

theorem lookupA_insertA {α : Type} (l : List (String × α)) (k k' : String) (v : α) :
    lookupA (insertA l k v) k' = if k' = k then some v else lookupA l k' := by
  rw [insertA]
  by_cases hp : (l.find? (fun kv => kv.1 == k)).isSome = true
  · rw [if_pos hp, lookupA_replace_map]
    by_cases h : k' = k
    · rw [if_pos h, if_pos h]
      obtain ⟨kv, hkv⟩ := Option.isSome_iff_exists.mp hp
      rw [lookupA, hkv]
      rfl
    · rw [if_neg h, if_neg h]
  · rw [if_neg hp, lookupA_append]
    have hnone : lookupA l k = none := by
      rw [lookupA, Option.not_isSome_iff_eq_none.mp hp]
      rfl
    by_cases h : k' = k
    · subst h
      rw [if_pos rfl, hnone, lookupA_cons, if_pos rfl]
      rfl
    · rw [if_neg h, lookupA_cons, if_neg (fun hh => h hh.symm), lookupA_nil,
        orD_none_right]

/-- The resolver-relevant, cache-independent part of a measurement wrapper:
geometry cell, point count, and the three other poison flags (everything
except the cached scale/area/length values). -/
structure MeasCore where
  measurement : LockCell Measurement
  points : ℚ
  scalePoisoned : Bool
  areaPoisoned : Bool
  lengthPoisoned : Bool
deriving DecidableEq

def MeasurementWrapper.core (w : MeasurementWrapper) : MeasCore :=
  ⟨w.measurement, w.points, w.scale.poisoned, w.area.poisoned, w.length.poisoned⟩

/-- All four locks of the wrapper are unpoisoned. -/
def MeasurementWrapper.healthy (w : MeasurementWrapper) : Bool :=
  !w.measurement.poisoned && !w.scale.poisoned && !w.area.poisoned && !w.length.poisoned

def measCoreList (st : TakeoffStateHandler) : List (String × MeasCore) :=
  st.measurements.map (fun kv => (kv.1, kv.2.core))

def scaleVals (st : TakeoffStateHandler) : List (String × Option Scale) :=
  st.measurements.map (fun kv => (kv.1, kv.2.scale.val))

/-- Every measurement wrapper in the registry has healthy locks. -/
def TakeoffStateHandler.measHealthy (st : TakeoffStateHandler) : Bool :=
  st.measurements.all (fun kv => kv.2.healthy)

theorem healthy_core (w : MeasurementWrapper) :
    w.healthy = (!w.core.measurement.poisoned && !w.core.scalePoisoned
      && !w.core.areaPoisoned && !w.core.lengthPoisoned) := rfl

theorem all_healthy_map_core (l : List (String × MeasurementWrapper)) :
    l.all (fun kv => kv.2.healthy)
      = (l.map (fun kv => (kv.1, kv.2.core))).all
          (fun kc => !kc.2.measurement.poisoned && !kc.2.scalePoisoned
            && !kc.2.areaPoisoned && !kc.2.lengthPoisoned) := by
  induction l with
  | nil => rfl
  | cons kv t ih =>
    simp only [List.map_cons, List.all_cons, ih]
    rfl

theorem measHealthy_of_coreList {st st' : TakeoffStateHandler}
    (h : measCoreList st' = measCoreList st) :
    st'.measHealthy = st.measHealthy := by
  have h1 : ∀ (u : TakeoffStateHandler), u.measHealthy
      = (measCoreList u).all (fun kc => !kc.2.measurement.poisoned
          && !kc.2.scalePoisoned && !kc.2.areaPoisoned && !kc.2.lengthPoisoned) := by
    intro u
    rw [TakeoffStateHandler.measHealthy, measCoreList, all_healthy_map_core]
  rw [h1, h1, h]

theorem healthy_of_lookup {st : TakeoffStateHandler} {k : String}
    {w : MeasurementWrapper} (hh : st.measHealthy = true)
    (hl : lookupA st.measurements k = some w) : w.healthy = true := by
  rw [lookupA] at hl
  cases hf : st.measurements.find? (fun kv => kv.1 == k) with
  | none => rw [hf] at hl; simp at hl
  | some kv =>
    rw [hf] at hl
    simp at hl
    have hmem := List.mem_of_find?_eq_some hf
    have := (List.all_eq_true.mp hh) kv hmem
    rw [← hl]
    exact this

/-- The projections that group recomputes and cache refills leave intact:
the scales map, every wrapper's core, and every wrapper's cached scale. -/
def GroupSafe (st st' : TakeoffStateHandler) : Prop :=
  st'.scales = st.scales ∧ measCoreList st' = measCoreList st
    ∧ scaleVals st' = scaleVals st

theorem groupSafe_refl (st : TakeoffStateHandler) : GroupSafe st st := ⟨rfl, rfl, rfl⟩

theorem groupSafe_trans {s1 s2 s3 : TakeoffStateHandler}
    (h1 : GroupSafe s1 s2) (h2 : GroupSafe s2 s3) : GroupSafe s1 s3 :=
  ⟨h2.1.trans h1.1, h2.2.1.trans h1.2.1, h2.2.2.trans h1.2.2⟩

@[simp] theorem pout_pure_eq {α : Type} (a : α) : (pure a : POut α) = .ok a := rfl

@[simp] theorem pout_bind_ok {α β : Type} (a : α) (f : α → POut β) :
    ((POut.ok a : POut α) >>= f) = f a := rfl

@[simp] theorem pout_bind_panic {α β : Type} (f : α → POut β) :
    ((POut.panic : POut α) >>= f) = .panic := rfl

theorem healthy_measurement {w : MeasurementWrapper} (h : w.healthy = true) :
    w.measurement.poisoned = false := by
  simp [MeasurementWrapper.healthy] at h
  exact h.1.1.1

theorem healthy_scale {w : MeasurementWrapper} (h : w.healthy = true) :
    w.scale.poisoned = false := by
  simp [MeasurementWrapper.healthy] at h
  exact h.1.1.2

theorem healthy_area {w : MeasurementWrapper} (h : w.healthy = true) :
    w.area.poisoned = false := by
  simp [MeasurementWrapper.healthy] at h
  exact h.1.2

theorem healthy_length {w : MeasurementWrapper} (h : w.healthy = true) :
    w.length.poisoned = false := by
  simp [MeasurementWrapper.healthy] at h
  exact h.2

theorem groupSafe_updMeas (st : TakeoffStateHandler) (mid : String)
    (f : MeasurementWrapper → MeasurementWrapper)
    (hf : ∀ w, lookupA st.measurements mid = some w →
      (f w).core = w.core ∧ (f w).scale.val = w.scale.val) :
    GroupSafe st (st.updMeas mid f) := by
  refine ⟨rfl, ?_, ?_⟩
  · exact map_proj_updateA MeasurementWrapper.core st.measurements mid f
      (fun v hv => (hf v hv).1)
  · exact map_proj_updateA (fun w => w.scale.val) st.measurements mid f
      (fun v hv => (hf v hv).2)

theorem get_area_value_snd_shape (w : MeasurementWrapper) :
    (w.get_area_value).2 = w
      ∨ ∃ v, (w.get_area_value).2 = { w with area := { w.area with val := v } } := by
  unfold MeasurementWrapper.get_area_value
  cases h1 : lock_mutex w.area "area" with
  | error e => simp only [h1]; left; trivial
  | ok a =>
    cases a with
    | some x => simp only [h1]; left; trivial
    | none =>
      cases h2 : w.calculate_area with
      | error e => simp only [h1, h2]; left; trivial
      | ok v => simp only [h1, h2]; right; exact ⟨v, rfl⟩

theorem get_area_value_core (w : MeasurementWrapper) :
    ((w.get_area_value).2).core = w.core
      ∧ ((w.get_area_value).2).scale.val = w.scale.val := by
  rcases get_area_value_snd_shape w with h | ⟨v, h⟩ <;> rw [h] <;> exact ⟨rfl, rfl⟩

theorem get_length_value_snd_shape (w : MeasurementWrapper) :
    (w.get_length_value).2 = w
      ∨ ∃ v, (w.get_length_value).2 = { w with length := { w.length with val := v } } := by
  unfold MeasurementWrapper.get_length_value
  cases h1 : lock_mutex w.length "length" with
  | error e => simp only [h1]; left; trivial
  | ok a =>
    cases a with
    | some x => simp only [h1]; left; trivial
    | none =>
      cases h2 : w.calculate_length with
      | error e => simp only [h1, h2]; left; trivial
      | ok v => simp only [h1, h2]; right; exact ⟨v, rfl⟩

theorem get_length_value_core (w : MeasurementWrapper) :
    ((w.get_length_value).2).core = w.core
      ∧ ((w.get_length_value).2).scale.val = w.scale.val := by
  rcases get_length_value_snd_shape w with h | ⟨v, h⟩ <;> rw [h] <;> exact ⟨rfl, rfl⟩

theorem collectAreas_cons (st : TakeoffStateHandler) (mid : String) (rest : List String) :
    collectAreas st (mid :: rest) =
      match lookupA st.measurements mid with
      | none => collectAreas st rest
      | some w =>
        let st' := st.updMeas mid (fun _ => (w.get_area_value).2)
        match (w.get_area_value).1 with
        | .ok (some a) => (a :: (collectAreas st' rest).1, (collectAreas st' rest).2)
        | _ => ((collectAreas st' rest).1, (collectAreas st' rest).2) := rfl

theorem groupLengthFold_cons (st : TakeoffStateHandler) (mid : String)
    (rest : List String) (acc : Option ℝ) :
    groupLengthFold st (mid :: rest) acc =
      match lookupA st.measurements mid with
      | none => groupLengthFold st rest acc
      | some w =>
        let st' := st.updMeas mid (fun _ => (w.get_length_value).2)
        match (w.get_length_value).1 with
        | .ok (some length) =>
          groupLengthFold st' rest
            (some (match acc with | some a => a + length | none => length))
        | _ => groupLengthFold st' rest acc := rfl

theorem groupSafe_updMeas_area (st : TakeoffStateHandler) (mid : String)
    {w : MeasurementWrapper} (hl : lookupA st.measurements mid = some w) :
    GroupSafe st (st.updMeas mid (fun _ => (w.get_area_value).2)) := by
  refine groupSafe_updMeas st mid _ (fun v hv => ?_)
  rw [hl] at hv
  obtain rfl : w = v := Option.some.inj hv
  exact get_area_value_core w

theorem groupSafe_updMeas_length (st : TakeoffStateHandler) (mid : String)
    {w : MeasurementWrapper} (hl : lookupA st.measurements mid = some w) :
    GroupSafe st (st.updMeas mid (fun _ => (w.get_length_value).2)) := by
  refine groupSafe_updMeas st mid _ (fun v hv => ?_)
  rw [hl] at hv
  obtain rfl : w = v := Option.some.inj hv
  exact get_length_value_core w

theorem groupSafe_collectAreas (ids : List String) :
    ∀ st : TakeoffStateHandler, GroupSafe st (collectAreas st ids).2 := by
  induction ids with
  | nil => intro st; exact groupSafe_refl st
  | cons mid rest ih =>
    intro st
    rw [collectAreas_cons]
    split
    · exact ih st
    · next w hl =>
      have h3 := groupSafe_trans (groupSafe_updMeas_area st mid hl)
        (ih (st.updMeas mid (fun _ => (w.get_area_value).2)))
      split
      · exact h3
      · exact h3

theorem groupSafe_groupLengthFold (ids : List String) :
    ∀ (st : TakeoffStateHandler) (acc : Option ℝ),
      GroupSafe st (groupLengthFold st ids acc).2 := by
  induction ids with
  | nil => intro st acc; exact groupSafe_refl st
  | cons mid rest ih =>
    intro st acc
    rw [groupLengthFold_cons]
    split
    · exact ih st acc
    · next w hl =>
      have h1 := groupSafe_updMeas_length st mid hl
      split
      · exact groupSafe_trans h1 (ih _ _)
      · exact groupSafe_trans h1 (ih _ acc)

/-- The member keys a healthy filter pass collects: entries whose stored
geometry carries the matching `group_id`, in map order. -/
def memberKeysOf (group_id : String) (l : List (String × MeasurementWrapper)) :
    List String :=
  (l.filter (fun kv => kv.2.measurement.val.group_id == group_id)).map (·.1)

/-- The keys of the measurements on a page, in map order. -/
def pageKeysOf (page_id : String) (l : List (String × MeasurementWrapper)) :
    List String :=
  (l.filter (fun kv => kv.2.measurement.val.page_id == page_id)).map (·.1)

theorem collectGroupMembers_ok (group_id : String)
    (l : List (String × MeasurementWrapper))
    (h : l.all (fun kv => kv.2.healthy) = true) :
    collectGroupMembers group_id l = .ok (memberKeysOf group_id l) := by
  induction l with
  | nil => rfl
  | cons kv t ih =>
    rw [List.all_cons, Bool.and_eq_true] at h
    have hm : kv.2.measurement.poisoned = false := healthy_measurement h.1
    rw [collectGroupMembers, MeasurementWrapper.get_group_id, hm,
      if_neg (show ¬(false = true) by simp)]
    simp only [pout_bind_ok, ih h.2, pout_pure_eq]
    simp only [memberKeysOf, List.filter_cons]
    by_cases hg : (kv.2.measurement.val.group_id == group_id) = true
    · rw [hg]
      simp
    · rw [show (kv.2.measurement.val.group_id == group_id) = false from by
        simpa using hg]
      simp

theorem collectPageMembers_ok (page_id : String)
    (l : List (String × MeasurementWrapper))
    (h : l.all (fun kv => kv.2.healthy) = true) :
    collectPageMembers page_id l = .ok (pageKeysOf page_id l) := by
  induction l with
  | nil => rfl
  | cons kv t ih =>
    rw [List.all_cons, Bool.and_eq_true] at h
    have hm : kv.2.measurement.poisoned = false := healthy_measurement h.1
    rw [collectPageMembers, MeasurementWrapper.page_id, hm,
      if_neg (show ¬(false = true) by simp)]
    simp only [pout_bind_ok, ih h.2, pout_pure_eq]
    simp only [pageKeysOf, List.filter_cons]
    by_cases hg : (kv.2.measurement.val.page_id == page_id) = true
    · rw [hg]
      simp
    · rw [show (kv.2.measurement.val.page_id == page_id) = false from by
        simpa using hg]
      simp

/-- `GroupWrapper::recompute_measurements` against a registry with healthy
measurement locks never panics, and only touches area/length caches of
members — every wrapper core, cached scale, and the scales map survive. -/
theorem collectAreas_groups (ids : List String) :
    ∀ st : TakeoffStateHandler, (collectAreas st ids).2.groups = st.groups := by
  induction ids with
  | nil => intro st; rfl
  | cons mid rest ih =>
    intro st
    rw [collectAreas_cons]
    split
    · exact ih st
    · next w hl =>
      split
      · exact ih _
      · exact ih _

theorem groupLengthFold_groups (ids : List String) :
    ∀ (st : TakeoffStateHandler) (acc : Option ℝ),
      (groupLengthFold st ids acc).2.groups = st.groups := by
  induction ids with
  | nil => intro st acc; rfl
  | cons mid rest ih =>
    intro st acc
    rw [groupLengthFold_cons]
    split
    · exact ih st acc
    · next w hl =>
      split
      · exact ih _ _
      · exact ih _ acc

theorem gw_recompute_spec (st : TakeoffStateHandler) (g : GroupWrapper)
    (h : st.measHealthy = true) :
    ∃ r g' st', GroupWrapper.recompute_measurements st g = .ok (r, g', st')
      ∧ GroupSafe st st' ∧ st'.groups = st.groups := by
  unfold GroupWrapper.recompute_measurements
  simp only [collectGroupMembers_ok g.id st.measurements h, pout_bind_ok]
  have hA := groupSafe_collectAreas (memberKeysOf g.id st.measurements) st
  have hAg := collectAreas_groups (memberKeysOf g.id st.measurements) st
  cases hc1 : collectAreas st (memberKeysOf g.id st.measurements) with
  | mk areaVals st₁ =>
    rw [hc1] at hA hAg
    have hL := groupSafe_groupLengthFold (memberKeysOf g.id st.measurements) st₁ none
    have hLg := groupLengthFold_groups (memberKeysOf g.id st.measurements) st₁ none
    cases hc2 : groupLengthFold st₁ (memberKeysOf g.id st.measurements) none with
    | mk lenVal st₂ =>
      rw [hc2] at hL hLg
      have hsafe := groupSafe_trans hA hL
      have hg2 : st₂.groups = st.groups := hLg.trans hAg
      by_cases hga : g.area.poisoned = true
      · rw [if_pos hga]
        exact ⟨_, _, _, rfl, hA, hAg⟩
      · rw [if_neg hga]
        by_cases hgl : g.length.poisoned = true
        · rw [if_pos hgl]
          exact ⟨_, _, _, rfl, hsafe, hg2⟩
        · rw [if_neg hgl]
          by_cases hgp : g.points.poisoned = true
          · rw [if_pos hgp]
            exact ⟨_, _, _, rfl, hsafe, hg2⟩
          · rw [if_neg hgp]
            by_cases hgc : g.count.poisoned = true
            · rw [if_pos hgc]
              exact ⟨_, _, _, rfl, hsafe, hg2⟩
            · rw [if_neg hgc]
              exact ⟨_, _, _, rfl, hsafe, hg2⟩

theorem map_proj_updateA_comm {α β : Type} (proj : α → β) (l : List (String × α))
    (k : String) (f : α → α) (g : β → β)
    (hfg : ∀ v, proj (f v) = g (proj v)) :
    (updateA l k f).map (fun kv => (kv.1, proj kv.2))
      = updateA (l.map (fun kv => (kv.1, proj kv.2))) k g := by
  induction l with
  | nil => rfl
  | cons kv t ih =>
    obtain ⟨a, v⟩ := kv
    by_cases h : a = k
    · rw [show updateA ((a, v) :: t) k f = (a, f v) :: t from by
        simp [updateA, beq_iff_eq.mpr h]]
      simp only [List.map_cons]
      rw [show updateA ((a, proj v) :: t.map (fun kv => (kv.1, proj kv.2))) k g
          = (a, g (proj v)) :: t.map (fun kv => (kv.1, proj kv.2)) from by
        simp [updateA, beq_iff_eq.mpr h]]
      rw [hfg v]
    · rw [show updateA ((a, v) :: t) k f = (a, v) :: updateA t k f from by
        simp [updateA, show (a == k) = false from by simpa using h]]
      simp only [List.map_cons]
      rw [show updateA ((a, proj v) :: t.map (fun kv => (kv.1, proj kv.2))) k g
          = (a, proj v) :: updateA (t.map (fun kv => (kv.1, proj kv.2))) k g from by
        simp [updateA, show (a == k) = false from by simpa using h]]
      rw [ih]

/-- `compute_group` never panics against a healthy registry and leaves all
measurement cores, cached scales, and the scales map intact. -/
theorem compute_group_spec (st : TakeoffStateHandler) (gid : String)
    (h : st.measHealthy = true) :
    ∃ st', st.compute_group gid = .ok st' ∧ GroupSafe st st'
      ∧ (∀ g0, lookupA st.groups g0 = none → lookupA st'.groups g0 = none) := by
  cases hg : lookupA st.groups gid with
  | none =>
    refine ⟨st, ?_, groupSafe_refl st, fun g0 hg0 => hg0⟩
    unfold TakeoffStateHandler.compute_group
    rw [hg]
    rfl
  | some g =>
    obtain ⟨r, g', st', heq, hsafe, hgg⟩ := gw_recompute_spec st g h
    refine ⟨{ st' with groups := insertA st'.groups gid g' }, ?_,
      ⟨hsafe.1, hsafe.2.1, hsafe.2.2⟩, ?_⟩
    · unfold TakeoffStateHandler.compute_group
      rw [hg]
      simp only [heq, pout_bind_ok, pout_pure_eq]
    · intro g0 hg0
      have hne : g0 ≠ gid := fun hh => by
        rw [hh, hg] at hg0
        exact Option.noConfusion hg0
      show lookupA (insertA st'.groups gid g') g0 = none
      rw [lookupA_insertA, if_neg hne, hgg]
      exact hg0

/-- `MeasurementWrapper::recompute_measurements` on a healthy registry never
panics, and only rewrites the target's area/length caches plus group
aggregates. -/
theorem mw_recompute_spec (st : TakeoffStateHandler) (mid : String)
    (h : st.measHealthy = true) :
    ∃ r st', st.recompute_measurements mid = .ok (r, st') ∧ GroupSafe st st' := by
  cases hl : lookupA st.measurements mid with
  | none =>
    refine ⟨.ok PUnit.unit, st, ?_, groupSafe_refl st⟩
    unfold TakeoffStateHandler.recompute_measurements
    rw [hl]
  | some w =>
    have hw := healthy_of_lookup h hl
    have harea := healthy_area hw
    have hlen := healthy_length hw
    have hm := healthy_measurement hw
    unfold TakeoffStateHandler.recompute_measurements
    rw [hl]
    cases hca : w.calculate_area with
    | error e =>
      exact ⟨.error e, st, by simp [hca], groupSafe_refl st⟩
    | ok areaVal =>
      have hs1 : GroupSafe st (st.updMeas mid
          (fun w0 => { w0 with area := { w0.area with val := areaVal } })) :=
        groupSafe_updMeas st mid _ (fun v _ => ⟨rfl, rfl⟩)
      cases hcl : ({ w with area := { w.area with val := areaVal } }
          : MeasurementWrapper).calculate_length with
      | error e =>
        simp only [harea] at hcl
        refine ⟨.error e, _, ?_, hs1⟩
        simp only [hca, harea, Bool.false_eq_true, if_false, hcl]
      | ok lenVal =>
        have hs2 : GroupSafe (st.updMeas mid
            (fun w0 => { w0 with area := { w0.area with val := areaVal } }))
            ((st.updMeas mid
              (fun w0 => { w0 with area := { w0.area with val := areaVal } })).updMeas mid
              (fun w0 => { w0 with length := { w0.length with val := lenVal } })) :=
          groupSafe_updMeas _ mid _ (fun v _ => ⟨rfl, rfl⟩)
        have hsafe12 := groupSafe_trans hs1 hs2
        have hh2 : ((st.updMeas mid
            (fun w0 => { w0 with area := { w0.area with val := areaVal } })).updMeas mid
            (fun w0 => { w0 with length := { w0.length with val := lenVal } })).measHealthy
            = true := by
          rw [measHealthy_of_coreList hsafe12.2.1]
          exact h
        simp only [harea] at hcl
        obtain ⟨st₃, hcg, hsafe3, _⟩ := compute_group_spec _ w.measurement.val.group_id hh2
        refine ⟨.ok PUnit.unit, st₃, ?_, groupSafe_trans hsafe12 hsafe3⟩
        simp only [hca, harea, hlen, Bool.false_eq_true, if_false, hcl,
          MeasurementWrapper.get_group_id, hm, hcg, pout_bind_ok, pout_pure_eq]

/-- `MeasurementWrapper::set_scale` on a healthy registry stores the scale at
`mid` and otherwise only rewrites caches: the scales map and all wrapper cores
survive, and the cached-scale view is exactly updated at `mid`. -/
theorem set_scale_spec (st : TakeoffStateHandler) (mid : String) (s : Scale)
    {w : MeasurementWrapper} (h : st.measHealthy = true)
    (hl : lookupA st.measurements mid = some w) :
    ∃ st', st.set_scale mid s = .ok st'
      ∧ st'.scales = st.scales
      ∧ measCoreList st' = measCoreList st
      ∧ scaleVals st' = updateA (scaleVals st) mid (fun _ => some s) := by
  have hw := healthy_of_lookup h hl
  have hsp := healthy_scale hw
  have hs1core : measCoreList (st.updMeas mid
      (fun w0 => { w0 with scale := { w0.scale with val := some s } }))
      = measCoreList st :=
    map_proj_updateA MeasurementWrapper.core st.measurements mid _ (fun v _ => rfl)
  have hs1scale : scaleVals (st.updMeas mid
      (fun w0 => { w0 with scale := { w0.scale with val := some s } }))
      = updateA (scaleVals st) mid (fun _ => some s) := by
    show (updateA st.measurements mid
        (fun w0 => { w0 with scale := { w0.scale with val := some s } })).map
        (fun kv => (kv.1, kv.2.scale.val))
      = updateA (st.measurements.map (fun kv => (kv.1, kv.2.scale.val))) mid
        (fun _ => some s)
    exact map_proj_updateA_comm (fun w0 => w0.scale.val) st.measurements mid
      (fun w0 => { w0 with scale := { w0.scale with val := some s } })
      (fun _ => some s) (fun v => rfl)
  have hh1 : (st.updMeas mid
      (fun w0 => { w0 with scale := { w0.scale with val := some s } })).measHealthy
      = true := by
    rw [measHealthy_of_coreList hs1core]
    exact h
  obtain ⟨r, st₂, hrec, hsafe2⟩ := mw_recompute_spec _ mid hh1
  refine ⟨st₂, ?_, ?_, ?_, ?_⟩
  · unfold TakeoffStateHandler.set_scale
    rw [hl]
    simp only [hsp, Bool.false_eq_true, if_false, hrec, pout_bind_ok, pout_pure_eq]
  · exact hsafe2.1
  · exact hsafe2.2.1.trans hs1core
  · exact hsafe2.2.2.trans hs1scale

/-- Spec side: the scale the resolver selects for the measurement at `mid`
against the registry's current scale set (`None` for a missing entry, a
poisoned geometry lock, or invalid geometry). -/
def resolveFor (st : TakeoffStateHandler) (mid : String) : Option Scale :=
  match lookupA st.measurements mid with
  | none => none
  | some w =>
    if w.measurement.poisoned then none
    else
      match w.measurement.val.to_geometry with
      | .error _ => none
      | .ok geometry =>
        scaleLoop geometry (st.get_page_scales w.measurement.val.page_id) none

/-- The cached-scale view of the entry at `k` (`none` when absent). -/
def scaleValAt (st : TakeoffStateHandler) (k : String) : Option (Option Scale) :=
  lookupA (scaleVals st) k

theorem scaleValAt_eq (st : TakeoffStateHandler) (k : String) :
    scaleValAt st k = (lookupA st.measurements k).map (fun w => w.scale.val) := by
  rw [scaleValAt, scaleVals]
  exact lookupA_map_proj (fun w => w.scale.val) st.measurements k

theorem get_page_scales_congr {st st' : TakeoffStateHandler}
    (h : st'.scales = st.scales) (pid : String) :
    st'.get_page_scales pid = st.get_page_scales pid := by
  rw [TakeoffStateHandler.get_page_scales, TakeoffStateHandler.get_page_scales, h]

theorem lookup_core_congr {st st' : TakeoffStateHandler}
    (h : measCoreList st' = measCoreList st) (k : String) :
    (lookupA st'.measurements k).map MeasurementWrapper.core
      = (lookupA st.measurements k).map MeasurementWrapper.core := by
  have h1 : ∀ u : TakeoffStateHandler, lookupA (measCoreList u) k
      = (lookupA u.measurements k).map MeasurementWrapper.core := fun u => by
    rw [measCoreList]
    exact lookupA_map_proj MeasurementWrapper.core u.measurements k
  rw [← h1 st', ← h1 st, h]

/-- The resolver result depends only on the scales map and the wrapper cores,
not on any cached value. -/
theorem resolveFor_congr {st st' : TakeoffStateHandler}
    (hs : st'.scales = st.scales) (hc : measCoreList st' = measCoreList st)
    (mid : String) :
    resolveFor st' mid = resolveFor st mid := by
  have hcc := lookup_core_congr hc mid
  rw [resolveFor, resolveFor]
  cases h1 : lookupA st.measurements mid with
  | none =>
    rw [h1] at hcc
    cases h2 : lookupA st'.measurements mid with
    | none => rfl
    | some w' => rw [h2] at hcc; simp at hcc
  | some w =>
    rw [h1] at hcc
    cases h2 : lookupA st'.measurements mid with
    | none => rw [h2] at hcc; simp at hcc
    | some w' =>
      rw [h2] at hcc
      simp at hcc
      have hmeas : w'.measurement = w.measurement :=
        congrArg MeasCore.measurement hcc
      simp only [hmeas, get_page_scales_congr hs]

/-- `MeasurementWrapper::calculate_scale` on a healthy registry returns the
resolver's choice, stores it (only) when there is one, and otherwise leaves
every cached scale, every wrapper core, and the scales map alone. -/
theorem calculate_scale_spec (st : TakeoffStateHandler) (mid : String)
    (h : st.measHealthy = true) :
    ∃ st', st.calculate_scale mid = .ok (resolveFor st mid, st')
      ∧ st'.scales = st.scales
      ∧ measCoreList st' = measCoreList st
      ∧ scaleVals st' = (match resolveFor st mid with
          | some s => updateA (scaleVals st) mid (fun _ => some s)
          | none => scaleVals st) := by
  cases hl : lookupA st.measurements mid with
  | none =>
    have hres : resolveFor st mid = none := by simp only [resolveFor, hl]
    refine ⟨st, ?_, rfl, rfl, by rw [hres]⟩
    unfold TakeoffStateHandler.calculate_scale
    rw [hl, hres]
  | some w =>
    have hm := healthy_measurement (healthy_of_lookup h hl)
    cases hg : w.measurement.val.to_geometry with
    | error e =>
      have hres : resolveFor st mid = none := by
        simp only [resolveFor, hl]
        simp [hm, hg]
      refine ⟨st, ?_, rfl, rfl, by rw [hres]⟩
      unfold TakeoffStateHandler.calculate_scale
      rw [hl, hres]
      simp [hm, hg]
    | ok geometry =>
      cases hsl : scaleLoop geometry
          (st.get_page_scales w.measurement.val.page_id) none with
      | none =>
        have hres : resolveFor st mid = none := by
          simp only [resolveFor, hl]
          simp [hm, hg, hsl]
        refine ⟨st, ?_, rfl, rfl, by rw [hres]⟩
        unfold TakeoffStateHandler.calculate_scale
        rw [hl, hres]
        simp [hm, hg, hsl]
      | some s =>
        have hres : resolveFor st mid = some s := by
          simp only [resolveFor, hl]
          simp [hm, hg, hsl]
        obtain ⟨st', hset, hsc, hcore, hsv⟩ := set_scale_spec st mid s h hl
        refine ⟨st', ?_, hsc, hcore, by rw [hres]; exact hsv⟩
        unfold TakeoffStateHandler.calculate_scale
        rw [hl, hres]
        simp [hm, hg, hsl, hset]

theorem calcScaleFold_cons (st : TakeoffStateHandler) (mid : String)
    (rest : List String) :
    calcScaleFold st (mid :: rest)
      = (st.calculate_scale mid) >>= fun p => calcScaleFold p.2 rest := rfl

theorem scaleValAt_of_upd {st₀ st₁ : TakeoffStateHandler} {mid : String}
    (hsv : scaleVals st₁ = (match resolveFor st₀ mid with
        | some s => updateA (scaleVals st₀) mid (fun _ => some s)
        | none => scaleVals st₀)) :
    (∀ k, k ≠ mid → scaleValAt st₁ k = scaleValAt st₀ k)
    ∧ scaleValAt st₁ mid = (match resolveFor st₀ mid with
        | some s => (scaleValAt st₀ mid).map (fun _ => some s)
        | none => scaleValAt st₀ mid) := by
  cases hres : resolveFor st₀ mid with
  | none =>
    simp only [hres] at hsv
    refine ⟨fun k _ => ?_, ?_⟩
    · show lookupA (scaleVals st₁) k = scaleValAt st₀ k
      rw [hsv]
      rfl
    · show lookupA (scaleVals st₁) mid = scaleValAt st₀ mid
      rw [hsv]
      rfl
  | some s =>
    simp only [hres] at hsv
    refine ⟨fun k hk => ?_, ?_⟩
    · show lookupA (scaleVals st₁) k = scaleValAt st₀ k
      rw [hsv, lookupA_updateA, if_neg hk]
      rfl
    · show lookupA (scaleVals st₁) mid = (scaleValAt st₀ mid).map (fun _ => some s)
      rw [hsv, lookupA_updateA, if_pos rfl]
      rfl

/-- The `compute_page` loop: every processed measurement ends with its cached
scale equal to the resolver's choice when there is one, and retains its
previous cached scale when the resolver selects nothing; unprocessed entries
are untouched. -/
theorem calcScaleFold_spec (ids : List String) :
    ∀ st₀ : TakeoffStateHandler, st₀.measHealthy = true →
    ∃ st', calcScaleFold st₀ ids = .ok st'
      ∧ st'.scales = st₀.scales
      ∧ measCoreList st' = measCoreList st₀
      ∧ (∀ k, k ∉ ids → scaleValAt st' k = scaleValAt st₀ k)
      ∧ (∀ k, k ∈ ids → scaleValAt st' k
          = (match resolveFor st₀ k with
              | some s => (scaleValAt st₀ k).map (fun _ => some s)
              | none => scaleValAt st₀ k)) := by
  induction ids with
  | nil =>
    intro st₀ h
    exact ⟨st₀, rfl, rfl, rfl, fun k _ => rfl, fun k hk => absurd hk (by simp)⟩
  | cons mid rest ih =>
    intro st₀ h
    obtain ⟨st₁, hc, hsc1, hcore1, hsv1⟩ := calculate_scale_spec st₀ mid h
    have h1 : st₁.measHealthy = true := by
      rw [measHealthy_of_coreList hcore1]
      exact h
    obtain ⟨st', hfold, hsc', hcore', hout, hin⟩ := ih st₁ h1
    have hres1 : ∀ k, resolveFor st₁ k = resolveFor st₀ k :=
      fun k => resolveFor_congr hsc1 hcore1 k
    obtain ⟨hupd_ne, hupd_eq⟩ := scaleValAt_of_upd hsv1
    refine ⟨st', ?_, hsc'.trans hsc1, hcore'.trans hcore1, ?_, ?_⟩
    · rw [calcScaleFold_cons, hc, pout_bind_ok, hfold]
    · intro k hk
      have hk1 : k ≠ mid := fun hh => hk (hh ▸ List.mem_cons_self mid rest)
      have hk2 : k ∉ rest := fun hh => hk (List.mem_cons_of_mem mid hh)
      rw [hout k hk2, hupd_ne k hk1]
    · intro k hk
      by_cases hkr : k ∈ rest
      · rw [hin k hkr, hres1 k]
        by_cases hkm : k = mid
        · subst hkm
          rw [hupd_eq]
          cases hres : resolveFor st₀ k with
          | none => rfl
          | some s => cases hsv0 : scaleValAt st₀ k <;> simp
        · rw [hupd_ne k hkm]
      · have hkm : k = mid := by
          rcases List.mem_cons.mp hk with hh | hh
          · exact hh
          · exact absurd hh hkr
        subst hkm
        rw [hout k hkr, hupd_eq]

/-! ## Claim C9 — unit-conversion round trip -/

/-- C9: for every value `v` and units `A`, `B`, the length conversion round
trips: `convertLength(convertLength(v, A, B), B, A) = v` (exactly, in the
exact-arithmetic embedding of the `uom` conversions, which subsumes the
claim's floating-point tolerance). -/
theorem c9_convert_length_round_trip (v : ℝ) (A B : Unit) :
    UnitUtils.convert (UnitUtils.convert v A B) B A = v := by
  have hA : (A.lengthFactor : ℝ) ≠ 0 := by
    exact_mod_cast A.lengthFactor_ne_zero
  have hB : (B.lengthFactor : ℝ) ≠ 0 := by
    exact_mod_cast B.lengthFactor_ne_zero
  rw [UnitUtils.convert, UnitUtils.convert, Unit.convert_eq, Unit.convert_eq]
  field_simp

/-! ## Claim C4 — raw (pixel-space) area by measurement kind -/

/-- C4 (amended): the raw pixel-area derivation returns an `EmptyGeometry`
error — not 0 — for `Count` and (valid) `Polyline` measurements, because
`to_polygon` rejects them; it returns the shoelace area (half the absolute
cross-term sum over the edges including the closing edge) for valid polygons
and `|Δx|·|Δy|` for valid rectangles; and it returns the validation error for
invalid geometry (polygon with fewer than 3 points, degenerate rectangle). -/
theorem c4_raw_area_by_kind :
    (∀ i pg g p, Measurement.pixel_area (.count i pg g p)
        = .error (.emptyGeometry "measurement cannot be converted to polygon"))
  ∧ (∀ i pg g ps, 2 ≤ ps.length →
      Measurement.pixel_area (.polyline i pg g ps)
        = .error (.emptyGeometry "measurement cannot be converted to polygon"))
  ∧ (∀ i pg g ps, 3 ≤ ps.length →
      Measurement.pixel_area (.polygon i pg g ps)
        = .ok (|((ps.zip ps.tail).map (fun pq => cross pq.1 pq.2)).sum
                + cross (ps.getLastD default) (ps.headD default)| / 2))
  ∧ (∀ i pg g p1 p2, ¬(|p1.x - p2.x| < epsF64 ∧ |p1.y - p2.y| < epsF64) →
      Measurement.pixel_area (.rectangle i pg g p1 p2)
        = .ok (|p2.x - p1.x| * |p2.y - p1.y|))
  ∧ (∀ i pg g ps, ps.length < 3 →
      Measurement.pixel_area (.polygon i pg g ps)
        = .error (.emptyGeometry
            ("polygon must have at least 3 points, got " ++ toString ps.length)))
  ∧ (∀ i pg g p1 p2, |p1.x - p2.x| < epsF64 ∧ |p1.y - p2.y| < epsF64 →
      Measurement.pixel_area (.rectangle i pg g p1 p2)
        = .error (.emptyGeometry "rectangle corners must be distinct points")) :=
  ⟨pixel_area_count, pixel_area_polyline, pixel_area_polygon, pixel_area_rectangle,
    pixel_area_polygon_invalid, pixel_area_rectangle_degenerate⟩

/-- C4 counterexample to the claim as stated: a `Count` (and a valid
`Polyline`) raw area is an `EmptyGeometry` error, not 0. -/
theorem c4_raw_area_zero_counterexample :
    Measurement.pixel_area (.count "1" "1" "1" ⟨0, 0⟩)
        = .error (.emptyGeometry "measurement cannot be converted to polygon")
      ∧ Measurement.pixel_area (.count "1" "1" "1" ⟨0, 0⟩) ≠ .ok 0
      ∧ Measurement.pixel_area (.polyline "1" "1" "1" [⟨0, 0⟩, ⟨1, 0⟩]) ≠ .ok 0 :=
  ⟨rfl, by decide, by decide⟩

/-- C4 witness: the amended theorem applied at the spec's concrete rectangle
(0,0)–(100,50), whose raw area evaluates to 5000, and at a concrete
triangle, whose shoelace area evaluates to 6. -/
theorem c4_raw_area_by_kind_witness :
    Measurement.pixel_area (.rectangle "1" "1" "1" ⟨0, 0⟩ ⟨100, 50⟩) = .ok 5000
      ∧ Measurement.pixel_area (.polygon "1" "1" "1" [⟨0, 0⟩, ⟨4, 0⟩, ⟨4, 3⟩])
          = .ok 6 := by
  constructor
  · have h := c4_raw_area_by_kind.2.2.2.1 "1" "1" "1" ⟨0, 0⟩ ⟨100, 50⟩
      (by norm_num [epsF64])
    rw [h]
    norm_num
  · have h := c4_raw_area_by_kind.2.2.1 "1" "1" "1" [⟨0, 0⟩, ⟨4, 0⟩, ⟨4, 3⟩]
      (by norm_num)
    rw [h]
    norm_num [cross, List.getLastD]

/-! ## compute_page and the scale-mutation cascade -/

theorem mem_pageKeysOf {page_id : String} {l : List (String × MeasurementWrapper)}
    {k : String} {w : MeasurementWrapper} (hl : lookupA l k = some w)
    (hp : w.measurement.val.page_id = page_id) :
    k ∈ pageKeysOf page_id l := by
  rw [lookupA] at hl
  cases hf : l.find? (fun kv => kv.1 == k) with
  | none => rw [hf] at hl; simp at hl
  | some kv =>
    rw [hf] at hl
    simp at hl
    have hmem := List.mem_of_find?_eq_some hf
    have hkey := List.find?_some hf
    rw [pageKeysOf, List.mem_map]
    refine ⟨kv, ?_, beq_iff_eq.mp hkey⟩
    rw [List.mem_filter]
    refine ⟨hmem, ?_⟩
    show (kv.2.measurement.val.page_id == page_id) = true
    rw [hl, hp, beq_self_eq_true]

/-- `TakeoffStateHandler::compute_page` on a healthy registry succeeds and
re-resolves exactly the page's measurements: each one's cached scale becomes
the resolver's choice when the resolver selects a scale and is retained
unchanged when it selects none; measurements off the page, every wrapper
core, and the scales map are untouched. -/
theorem compute_page_spec (st : TakeoffStateHandler) (page_id : String)
    (h : st.measHealthy = true) :
    ∃ st', st.compute_page page_id = .ok st'
      ∧ st'.scales = st.scales
      ∧ measCoreList st' = measCoreList st
      ∧ (∀ k, k ∉ pageKeysOf page_id st.measurements →
          scaleValAt st' k = scaleValAt st k)
      ∧ (∀ k, k ∈ pageKeysOf page_id st.measurements →
          scaleValAt st' k = (match resolveFor st k with
            | some s => (scaleValAt st k).map (fun _ => some s)
            | none => scaleValAt st k)) := by
  obtain ⟨st', hfold, hsc, hcore, hout, hin⟩ :=
    calcScaleFold_spec (pageKeysOf page_id st.measurements) st h
  refine ⟨st', ?_, hsc, hcore, hout, hin⟩
  unfold TakeoffStateHandler.compute_page
  rw [collectPageMembers_ok page_id st.measurements h, pout_bind_ok, hfold]

/-! ## Claim C3 — scale mutations re-resolve the affected page -/

/-- C3 (amended): `upsert_scale` and `remove_scale` re-run the scale resolver
for every measurement on the affected scale's page against the now-current
scale set — but the resolver's choice is only *stored* when it selects a
scale; when it selects none, the measurement's previous cached scale is
retained rather than cleared.  Measurements on other pages, all wrapper
cores, and the rest of the registry are untouched. -/
theorem c3_scale_mutation_reresolution (st : TakeoffStateHandler)
    (sc : Scale) (sid : String) (h : st.measHealthy = true) :
    (∃ st', st.upsert_scale sc = .ok (lookupA st.scales sc.id, st')
      ∧ st'.scales = insertA st.scales sc.id sc
      ∧ measCoreList st' = measCoreList st
      ∧ (∀ k, k ∈ pageKeysOf sc.page_id st.measurements →
          scaleValAt st' k
            = (match resolveFor { st with scales := insertA st.scales sc.id sc } k with
                | some s => (scaleValAt st k).map (fun _ => some s)
                | none => scaleValAt st k))
      ∧ (∀ k, k ∉ pageKeysOf sc.page_id st.measurements →
          scaleValAt st' k = scaleValAt st k))
    ∧ (∀ scale, lookupA st.scales sid = some scale →
      ∃ st', st.remove_scale sid = .ok (some scale, st')
      ∧ st'.scales = removeA st.scales sid
      ∧ measCoreList st' = measCoreList st
      ∧ (∀ k, k ∈ pageKeysOf scale.page_id st.measurements →
          scaleValAt st' k
            = (match resolveFor { st with scales := removeA st.scales sid } k with
                | some s => (scaleValAt st k).map (fun _ => some s)
                | none => scaleValAt st k))
      ∧ (∀ k, k ∉ pageKeysOf scale.page_id st.measurements →
          scaleValAt st' k = scaleValAt st k)) := by
  constructor
  · obtain ⟨st', hcp, hsc, hcore, hout, hin⟩ :=
      compute_page_spec { st with scales := insertA st.scales sc.id sc } sc.page_id h
    refine ⟨st', ?_, hsc, hcore, fun k hk => hin k hk, fun k hk => hout k hk⟩
    unfold TakeoffStateHandler.upsert_scale
    simp only [hcp, pout_bind_ok, pout_pure_eq]
  · intro scale hsl
    obtain ⟨st', hcp, hsc, hcore, hout, hin⟩ :=
      compute_page_spec { st with scales := removeA st.scales sid } scale.page_id h
    refine ⟨st', ?_, hsc, hcore, fun k hk => hin k hk, fun k hk => hout k hk⟩
    unfold TakeoffStateHandler.remove_scale
    rw [hsl]
    simp only [hcp, pout_bind_ok, pout_pure_eq]

/-- A concrete registry for C3: one valid triangle measurement on page `"p"`
whose cached scale is the page's only (`Default`) scale. -/
def c3Scale : Scale := .dflt "s1" "p" ⟨2, 1, Unit.meters⟩

def c3Meas : Measurement := .polygon "m1" "p" "g" [⟨0, 0⟩, ⟨4, 0⟩, ⟨0, 3⟩]

def c3Wrapper : MeasurementWrapper :=
  { measurement := LockCell.mk0 c3Meas
    scale := LockCell.mk0 (some c3Scale)
    area := LockCell.mk0 none
    length := LockCell.mk0 none
    points := 3 }

def c3St : TakeoffStateHandler :=
  { pages := []
    groups := []
    measurements := [("m1", c3Wrapper)]
    scales := [("s1", c3Scale)] }

/-- C3 counterexample to the claim as stated: removing the page's only scale
re-runs the resolver for the page's measurement, but the resolver now selects
nothing (`resolveFor st' "m1" = none`) and the measurement keeps its stale
cached scale (`some c3Scale`) instead of matching the resolver's (empty)
selection. -/
theorem c3_stale_cached_scale_counterexample :
    ∃ st', c3St.remove_scale "s1" = .ok (some c3Scale, st')
      ∧ resolveFor st' "m1" = none
      ∧ scaleValAt st' "m1" = some (some c3Scale) := by
  refine ⟨{ c3St with scales := [] }, ?_, ?_, ?_⟩
  · rfl
  · rfl
  · rfl

/-- C3 witness: the amended theorem applied at the concrete one-measurement
registry, with the health hypothesis discharged by evaluation. -/
theorem c3_scale_mutation_reresolution_witness :
    c3St.measHealthy = true
    ∧ ((∃ st', c3St.upsert_scale c3Scale = .ok (lookupA c3St.scales c3Scale.id, st')
      ∧ st'.scales = insertA c3St.scales c3Scale.id c3Scale
      ∧ measCoreList st' = measCoreList c3St
      ∧ (∀ k, k ∈ pageKeysOf c3Scale.page_id c3St.measurements →
          scaleValAt st' k
            = (match resolveFor { c3St with
                  scales := insertA c3St.scales c3Scale.id c3Scale } k with
                | some s => (scaleValAt c3St k).map (fun _ => some s)
                | none => scaleValAt c3St k))
      ∧ (∀ k, k ∉ pageKeysOf c3Scale.page_id c3St.measurements →
          scaleValAt st' k = scaleValAt c3St k))
    ∧ (∀ scale, lookupA c3St.scales "s1" = some scale →
      ∃ st', c3St.remove_scale "s1" = .ok (some scale, st')
      ∧ st'.scales = removeA c3St.scales "s1"
      ∧ measCoreList st' = measCoreList c3St
      ∧ (∀ k, k ∈ pageKeysOf scale.page_id c3St.measurements →
          scaleValAt st' k
            = (match resolveFor { c3St with scales := removeA c3St.scales "s1" } k with
                | some s => (scaleValAt c3St k).map (fun _ => some s)
                | none => scaleValAt c3St k))
      ∧ (∀ k, k ∉ pageKeysOf scale.page_id c3St.measurements →
          scaleValAt st' k = scaleValAt c3St k))) :=
  ⟨by decide, c3_scale_mutation_reresolution c3St c3Scale "s1" (by decide)⟩

/-! ## Claim C1 — resolver precedence -/

/-- C1 (amended): for a measurement with *valid* geometry, scale resolution
returns the first `Area` scale (in iteration order) whose bounding box
contains the full geometry, else the last `Default` scale seen during
iteration, else `None`; but when the measurement's geometry is invalid the
resolution is `None` outright — it does **not** fall back to the page's
`Default` scale. -/
theorem c1_resolver_precedence (st : TakeoffStateHandler) (mid : String)
    (w : MeasurementWrapper) (h : st.measHealthy = true)
    (hl : lookupA st.measurements mid = some w) :
    (∃ st', st.calculate_scale mid = .ok (resolveFor st mid, st'))
    ∧ (∀ g, w.measurement.val.to_geometry = .ok g →
        resolveFor st mid
          = orD (firstAreaMatch g (st.get_page_scales w.measurement.val.page_id))
              (lastDefault (st.get_page_scales w.measurement.val.page_id)))
    ∧ (∀ e, w.measurement.val.to_geometry = .error e →
        resolveFor st mid = none) := by
  have hm := healthy_measurement (healthy_of_lookup h hl)
  refine ⟨?_, ?_, ?_⟩
  · obtain ⟨st', hcs, _⟩ := calculate_scale_spec st mid h
    exact ⟨st', hcs⟩
  · intro g hg
    have hres : resolveFor st mid
        = scaleLoop g (st.get_page_scales w.measurement.val.page_id) none := by
      simp only [resolveFor, hl]
      simp [hm, hg]
    rw [hres, scaleLoop_eq, orD_none_right]
  · intro e he
    simp only [resolveFor, hl]
    simp [hm, he]

/-- The C1 counterexample registry: an *invalid* 2-point polygon on page
`"p"`, which has one `Default` scale. -/
def c1Scale : Scale := .dflt "sd" "p" ⟨2, 1, Unit.meters⟩

def c1Meas : Measurement := .polygon "m1" "p" "g" [⟨0, 0⟩, ⟨1, 0⟩]

def c1St : TakeoffStateHandler :=
  { pages := []
    groups := []
    measurements := [("m1", MeasurementWrapper.new c1Meas)]
    scales := [("sd", c1Scale)] }

/-- C1 counterexample to the claim as stated: the page carries a `Default`
scale (`lastDefault` selects it) and no `Area` scale matches, yet resolution
of the invalid 2-point polygon returns `None`, not the last `Default`. -/
theorem c1_invalid_geometry_counterexample :
    c1St.calculate_scale "m1" = .ok (none, c1St)
      ∧ lastDefault (c1St.get_page_scales "p") = some c1Scale
      ∧ (none : Option Scale) ≠ some c1Scale :=
  ⟨rfl, rfl, by decide⟩

/-- A valid-geometry registry for the C1 witness: a triangle inside the
bounding box of the page's `Area` scale, with a `Default` scale after it. -/
def c1AreaScale : Scale := .area "sa" "p" ⟨2, 1, Unit.meters⟩ (⟨0, 0⟩, ⟨10, 10⟩)

def c1WitMeas : Measurement := .polygon "m1" "p" "g" [⟨1, 1⟩, ⟨4, 1⟩, ⟨1, 3⟩]

def c1WitSt : TakeoffStateHandler :=
  { pages := []
    groups := []
    measurements := [("m1", MeasurementWrapper.new c1WitMeas)]
    scales := [("sa", c1AreaScale), ("sd", c1Scale)] }

/-- C1 witness: the amended theorem applied at the concrete valid-triangle
registry, with both hypotheses discharged by evaluation. -/
theorem c1_resolver_precedence_witness :
    (∃ st', c1WitSt.calculate_scale "m1" = .ok (resolveFor c1WitSt "m1", st'))
    ∧ (∀ g, (MeasurementWrapper.new c1WitMeas).measurement.val.to_geometry = .ok g →
        resolveFor c1WitSt "m1"
          = orD (firstAreaMatch g (c1WitSt.get_page_scales
              (MeasurementWrapper.new c1WitMeas).measurement.val.page_id))
              (lastDefault (c1WitSt.get_page_scales
                (MeasurementWrapper.new c1WitMeas).measurement.val.page_id)))
    ∧ (∀ e, (MeasurementWrapper.new c1WitMeas).measurement.val.to_geometry = .error e →
        resolveFor c1WitSt "m1" = none) :=
  c1_resolver_precedence c1WitSt "m1" (MeasurementWrapper.new c1WitMeas)
    (by decide) rfl

/-! ## Claim C2 — behavior at poisoned locks -/

/-- C2 (amended): read paths surface a poisoned lock as a typed value —
`get_area_value`/`get_length_value` return `TakeoffError::PoisonError` with
the cell untouched, `get_scale` degrades to `None` — and cascade recomputes
are swallowed (`compute_group` on a registry with healthy measurement locks
always returns `Ok`, retaining the scales map, all wrapper cores and cached
scales, whatever its internal result; `set_scale` still stores the scale and
returns `Ok` while its recompute's `Result` is discarded).  But the *write*
paths `set_scale`/`set_measurement` call `.expect(...)` on the per-field
lock: a poisoned scale or measurement lock is a panic, not a typed error. -/
theorem c2_lock_poisoning_behavior (st : TakeoffStateHandler) (mid : String)
    (w : MeasurementWrapper) (s : Scale) (m : Measurement) (gid : String) :
    (w.area.poisoned = true →
        w.get_area_value = (.error (.poisonError "area"), w))
    ∧ (w.length.poisoned = true →
        w.get_length_value = (.error (.poisonError "length"), w))
    ∧ (w.scale.poisoned = true → w.get_scale = none)
    ∧ (lookupA st.measurements mid = some w → w.scale.poisoned = true →
        st.set_scale mid s = .panic)
    ∧ (lookupA st.measurements mid = some w → w.measurement.poisoned = true →
        st.set_measurement mid m = .panic)
    ∧ (st.measHealthy = true →
        ∃ st', st.compute_group gid = .ok st' ∧ GroupSafe st st')
    ∧ (st.measHealthy = true → lookupA st.measurements mid = some w →
        ∃ st', st.set_scale mid s = .ok st'
          ∧ scaleVals st' = updateA (scaleVals st) mid (fun _ => some s)) := by
  refine ⟨?_, ?_, ?_, ?_, ?_, ?_, ?_⟩
  · intro hp
    simp [MeasurementWrapper.get_area_value, lock_mutex, hp]
  · intro hp
    simp [MeasurementWrapper.get_length_value, lock_mutex, hp]
  · intro hp
    simp [MeasurementWrapper.get_scale, hp]
  · intro hl hp
    unfold TakeoffStateHandler.set_scale
    rw [hl]
    simp only [hp, if_pos]
  · intro hl hp
    unfold TakeoffStateHandler.set_measurement
    rw [hl]
    simp only [hp, if_pos]
  · intro h
    obtain ⟨st', h1, h2, _⟩ := compute_group_spec st gid h
    exact ⟨st', h1, h2⟩
  · intro h hl
    obtain ⟨st', hss, _, _, hsv⟩ := set_scale_spec st mid s h hl
    exact ⟨st', hss, hsv⟩

/-- The C2 registries: one wrapper with every cache lock poisoned (healthy
geometry lock), and a healthy one-member, one-group registry. -/
def c2Scale : Scale := .dflt "s1" "p" ⟨2, 1, Unit.meters⟩

def c2Meas : Measurement := .count "m1" "p" "g" ⟨0, 0⟩

def c2PoisonedW : MeasurementWrapper :=
  { measurement := LockCell.mk0 c2Meas
    scale := ⟨true, none⟩
    area := ⟨true, none⟩
    length := ⟨true, none⟩
    points := 1 }

def c2PoisonedSt : TakeoffStateHandler :=
  { pages := []
    groups := []
    measurements := [("m1", c2PoisonedW)]
    scales := [] }

def c2Group : Group := ⟨"g", none, .area⟩

def c2HealthySt : TakeoffStateHandler :=
  { pages := []
    groups := [("g", GroupWrapper.new c2Group)]
    measurements := [("m1", MeasurementWrapper.new c2Meas)]
    scales := [] }

/-- C2 counterexample to the claim as stated: `set_scale` against a wrapper
whose scale lock is poisoned crashes (`.expect` panic rethrown by the thread
scope), instead of surfacing a typed `LockPoisoned` error. -/
theorem c2_poisoned_set_scale_panic_counterexample :
    c2PoisonedSt.set_scale "m1" c2Scale = .panic := rfl

/-- C2 witness: the amended theorem applied at the poisoned and healthy
concrete registries — the poisoned area lock surfaces as a typed error, the
poisoned scale lock makes `set_scale` panic, and `compute_group` on the
healthy registry succeeds with caches retained. -/
theorem c2_lock_poisoning_behavior_witness :
    c2PoisonedW.get_area_value = (.error (.poisonError "area"), c2PoisonedW)
    ∧ c2PoisonedW.get_scale = none
    ∧ c2PoisonedSt.set_scale "m1" c2Scale = .panic
    ∧ (∃ st', c2HealthySt.compute_group "g" = .ok st'
        ∧ GroupSafe c2HealthySt st') :=
  ⟨(c2_lock_poisoning_behavior c2PoisonedSt "m1" c2PoisonedW c2Scale c2Meas "g").1 rfl,
   (c2_lock_poisoning_behavior c2PoisonedSt "m1" c2PoisonedW c2Scale c2Meas
      "g").2.2.1 rfl,
   (c2_lock_poisoning_behavior c2PoisonedSt "m1" c2PoisonedW c2Scale c2Meas
      "g").2.2.2.1 rfl rfl,
   (c2_lock_poisoning_behavior c2HealthySt "m1" (MeasurementWrapper.new c2Meas)
      c2Scale c2Meas "g").2.2.2.2.2.1 (by decide)⟩

/-! ## Claim C6 — group aggregates -/

/-- Spec side: the member area contribution of the entry at `mid` —
`get_area_value().unwrap_or(None)`: the cached-or-computed area when it is
`Ok(Some(..))`, `None` on an error or an absent area. -/
def areaValOf (st : TakeoffStateHandler) (mid : String) : Option ℚ :=
  match lookupA st.measurements mid with
  | none => none
  | some w =>
    match (w.get_area_value).1 with
    | .ok v => v
    | .error _ => none

/-- `calculate_area` never reads the area cache cell. -/
theorem calculate_area_set_area (w : MeasurementWrapper) (a : LockCell (Option ℚ)) :
    ({ w with area := a } : MeasurementWrapper).calculate_area = w.calculate_area := rfl

/-- The get-or-compute `get_area_value` is idempotent: re-running it on the
updated cell returns the same result and changes nothing further. -/
theorem get_area_value_idem (w : MeasurementWrapper) :
    ((w.get_area_value).2).get_area_value
      = ((w.get_area_value).1, (w.get_area_value).2) := by
  by_cases hp : w.area.poisoned = true
  · simp [MeasurementWrapper.get_area_value, lock_mutex, hp]
  · cases hv : w.area.val with
    | some x =>
      simp [MeasurementWrapper.get_area_value, lock_mutex, hp, hv]
    | none =>
      cases hca : w.calculate_area with
      | error e =>
        simp [MeasurementWrapper.get_area_value, lock_mutex, hp, hv, hca]
      | ok v =>
        cases v with
        | some x =>
          simp [MeasurementWrapper.get_area_value, lock_mutex, hp, hv, hca,
            calculate_area_set_area]
        | none =>
          simp [MeasurementWrapper.get_area_value, lock_mutex, hp, hv, hca,
            calculate_area_set_area]

/-- A member cache fill during the group's area pass does not change any
entry's area contribution. -/
theorem areaValOf_updMeas {st : TakeoffStateHandler} {mid : String}
    {w : MeasurementWrapper} (hl : lookupA st.measurements mid = some w) (k : String) :
    areaValOf (st.updMeas mid (fun _ => (w.get_area_value).2)) k = areaValOf st k := by
  by_cases hk : k = mid
  · subst hk
    have h1 : lookupA (st.updMeas k (fun _ => (w.get_area_value).2)).measurements k
        = some ((w.get_area_value).2) := by
      show lookupA (updateA st.measurements k (fun _ => (w.get_area_value).2)) k
        = some ((w.get_area_value).2)
      rw [lookupA_updateA, if_pos rfl, hl]
      rfl
    have h2 : ((w.get_area_value).2).get_area_value.1 = (w.get_area_value).1 :=
      congrArg Prod.fst (get_area_value_idem w)
    unfold areaValOf
    simp only [h1, hl, h2]
  · have h1 : lookupA (st.updMeas mid (fun _ => (w.get_area_value).2)).measurements k
        = lookupA st.measurements k := by
      show lookupA (updateA st.measurements mid (fun _ => (w.get_area_value).2)) k
        = lookupA st.measurements k
      rw [lookupA_updateA, if_neg hk]
    unfold areaValOf
    rw [h1]

theorem filterMap_ext {α β : Type} (l : List α) {f g : α → Option β}
    (h : ∀ x, f x = g x) : l.filterMap f = l.filterMap g := by
  induction l with
  | nil => rfl
  | cons a t ih => rw [List.filterMap_cons, List.filterMap_cons, h a, ih]

/-- The values the group's area pass collects are exactly the present member
area contributions against the starting registry (absent ones are skipped). -/
theorem collectAreas_fst (ids : List String) :
    ∀ st : TakeoffStateHandler,
      (collectAreas st ids).1 = ids.filterMap (areaValOf st) := by
  induction ids with
  | nil => intro st; rfl
  | cons mid rest ih =>
    intro st
    rw [collectAreas_cons, List.filterMap_cons]
    cases hl : lookupA st.measurements mid with
    | none =>
      have hval : areaValOf st mid = none := by
        unfold areaValOf
        simp only [hl]
      simp only [hval]
      exact ih st
    | some w =>
      have hrest : (collectAreas (st.updMeas mid (fun _ => (w.get_area_value).2)) rest).1
          = rest.filterMap (areaValOf st) := by
        rw [ih]
        exact filterMap_ext rest (fun x => areaValOf_updMeas hl x)
      cases hr : (w.get_area_value).1 with
      | error e =>
        have hval : areaValOf st mid = none := by
          unfold areaValOf
          simp only [hl, hr]
        simp only [hval, hr]
        exact hrest
      | ok v =>
        cases v with
        | none =>
          have hval : areaValOf st mid = none := by
            unfold areaValOf
            simp only [hl, hr]
          simp only [hval, hr]
          exact hrest
        | some a =>
          have hval : areaValOf st mid = some a := by
            unfold areaValOf
            simp only [hl, hr]
          simp only [hval, hr]
          rw [hrest]

theorem foldl_add_eq_sum (t : List ℚ) : ∀ a : ℚ, t.foldl (· + ·) a = a + t.sum := by
  induction t with
  | nil => intro a; simp
  | cons b t ih =>
    intro a
    rw [List.foldl_cons, ih, List.sum_cons]
    ring

/-- `Iterator::reduce(+)` is `None` on the empty list and the list sum
otherwise. -/
theorem reduceSum_eq (l : List ℚ) :
    reduceSum l = match l with | [] => none | _ => some l.sum := by
  cases l with
  | nil => rfl
  | cons a t =>
    show some (t.foldl (· + ·) a) = some ((a :: t).sum)
    rw [foldl_add_eq_sum, List.sum_cons]

/-- C6: after `compute_group` on a healthy registry, the group's aggregate
count is the number of members (also when zero), and its aggregate area is
the sum of exactly the present member areas — absent areas are skipped, not
treated as zero — with the empty sum yielding `None`. -/
theorem c6_group_aggregates (st : TakeoffStateHandler) (gid : String)
    (g : GroupWrapper) (h : st.measHealthy = true)
    (hg : lookupA st.groups gid = some g)
    (ha : g.area.poisoned = false) (hle : g.length.poisoned = false)
    (hpp : g.points.poisoned = false) (hc : g.count.poisoned = false) :
    ∃ st' g', st.compute_group gid = .ok st'
      ∧ lookupA st'.groups gid = some g'
      ∧ g'.count.val = some (((memberKeysOf g.id st.measurements).length : ℚ))
      ∧ g'.area.val
          = (match (memberKeysOf g.id st.measurements).filterMap (areaValOf st) with
              | [] => none
              | l => some l.sum) := by
  unfold TakeoffStateHandler.compute_group
  rw [hg]
  unfold GroupWrapper.recompute_measurements
  simp only [collectGroupMembers_ok g.id st.measurements h, pout_bind_ok]
  have hfst := collectAreas_fst (memberKeysOf g.id st.measurements) st
  cases hc1 : collectAreas st (memberKeysOf g.id st.measurements) with
  | mk areaVals st₁ =>
    rw [hc1] at hfst
    cases hc2 : groupLengthFold st₁ (memberKeysOf g.id st.measurements) none with
    | mk lenVal st₂ =>
      rw [if_neg (by rw [ha]; exact Bool.false_ne_true),
        if_neg (by rw [hle]; exact Bool.false_ne_true),
        if_neg (by rw [hpp]; exact Bool.false_ne_true),
        if_neg (by rw [hc]; exact Bool.false_ne_true)]
      simp only [pout_bind_ok, pout_pure_eq]
      refine ⟨_, GroupWrapper.mk g.group
          ⟨g.area.poisoned, reduceSum areaVals⟩
          ⟨g.length.poisoned, lenVal⟩
          ⟨g.points.poisoned, groupPoints st₂ (memberKeysOf g.id st.measurements)⟩
          ⟨g.count.poisoned, some ((memberKeysOf g.id st.measurements).length : ℚ)⟩,
        rfl, ?_, ?_, ?_⟩
      · exact (lookupA_insertA st₂.groups gid gid _).trans (if_pos rfl)
      · rfl
      · show reduceSum areaVals
          = (match (memberKeysOf g.id st.measurements).filterMap (areaValOf st) with
              | [] => none
              | l => some l.sum)
        simp only at hfst
        rw [hfst, reduceSum_eq]
        cases List.filterMap (areaValOf st) (memberKeysOf g.id st.measurements) with
        | nil => rfl
        | cons a t => rfl

/-! ## Claim C7 — group removal cascade -/

theorem measHealthy_coreList (st : TakeoffStateHandler) :
    st.measHealthy = (measCoreList st).all (fun kc => !kc.2.measurement.poisoned
      && !kc.2.scalePoisoned && !kc.2.areaPoisoned && !kc.2.lengthPoisoned) := by
  rw [TakeoffStateHandler.measHealthy, measCoreList, all_healthy_map_core]

theorem all_sub_filter {α : Type} (p q : α → Bool) {l : List α}
    (h : l.all p = true) : (l.filter q).all p = true := by
  rw [List.all_eq_true] at h ⊢
  intro x hx
  exact h x (List.mem_of_mem_filter hx)

theorem measHealthy_removeA (st : TakeoffStateHandler) (mid : String)
    (h : st.measHealthy = true) :
    TakeoffStateHandler.measHealthy
      { st with measurements := removeA st.measurements mid } = true :=
  all_sub_filter _ _ h

theorem map_proj_removeA {α β : Type} (proj : α → β) (l : List (String × α))
    (k : String) :
    (removeA l k).map (fun kv => (kv.1, proj kv.2))
      = removeA (l.map (fun kv => (kv.1, proj kv.2))) k := by
  induction l with
  | nil => rfl
  | cons kv t ih =>
    obtain ⟨a, v⟩ := kv
    simp only [removeA] at ih ⊢
    simp only [List.filter_cons, List.map_cons]
    by_cases h : (a != k) = true
    · rw [if_pos h, if_pos h, List.map_cons, ih]
    · rw [if_neg h, if_neg h, ih]

theorem removeA_eq_of_none {α : Type} {l : List (String × α)} {k : String}
    (h : lookupA l k = none) : removeA l k = l := by
  induction l with
  | nil => rfl
  | cons kv t ih =>
    obtain ⟨a, v⟩ := kv
    rw [lookupA_cons] at h
    by_cases hak : a = k
    · rw [if_pos hak] at h
      exact absurd h (by simp)
    · rw [if_neg hak] at h
      rw [removeA, List.filter_cons, if_pos (by simpa using hak)]
      rw [show List.filter (fun kv => kv.1 != k) t = t from ih h]

theorem removeMeasFold_cons (st : TakeoffStateHandler) (mid : String)
    (rest : List String) :
    removeMeasFold st (mid :: rest)
      = (st.remove_measurement mid) >>= fun p => removeMeasFold p.2 rest := rfl

/-- `TakeoffStateHandler::remove_measurement` on a healthy registry succeeds,
deletes exactly the target key, preserves the scales map, and never invents a
group key. -/
theorem remove_measurement_spec (st : TakeoffStateHandler) (mid : String)
    (h : st.measHealthy = true) :
    ∃ r st₂, st.remove_measurement mid = .ok (r, st₂)
      ∧ st₂.scales = st.scales
      ∧ measCoreList st₂ = removeA (measCoreList st) mid
      ∧ (∀ g0, lookupA st.groups g0 = none → lookupA st₂.groups g0 = none) := by
  cases hl : lookupA st.measurements mid with
  | none =>
    refine ⟨none, st, ?_, rfl, ?_, fun g0 hg0 => hg0⟩
    · unfold TakeoffStateHandler.remove_measurement
      rw [hl]
    · have h1 : lookupA (measCoreList st) mid = none := by
        rw [measCoreList, lookupA_map_proj, hl]
        rfl
      rw [removeA_eq_of_none h1]
  | some w =>
    have hw := healthy_of_lookup h hl
    have hm := healthy_measurement hw
    have hh1 : ({ st with measurements := removeA st.measurements mid }
        : TakeoffStateHandler).measHealthy = true := measHealthy_removeA st mid h
    obtain ⟨st₂, hcg, hsafe, hgn⟩ :=
      compute_group_spec { st with measurements := removeA st.measurements mid }
        w.measurement.val.group_id hh1
    refine ⟨some w.measurement.val, st₂, ?_, hsafe.1, ?_, fun g0 hg0 => hgn g0 hg0⟩
    · unfold TakeoffStateHandler.remove_measurement
      rw [hl]
      simp only [MeasurementWrapper.get_group_id, MeasurementWrapper.get_measurement,
        hm, Bool.false_eq_true, if_false, pout_bind_ok, hcg, pout_pure_eq]
    · rw [hsafe.2.1]
      exact map_proj_removeA MeasurementWrapper.core st.measurements mid

/-- The `remove_group` removal loop on a healthy registry succeeds, removes
exactly the listed keys, preserves the scales map, and never invents a group
key. -/
theorem removeMeasFold_spec (ids : List String) :
    ∀ st : TakeoffStateHandler, st.measHealthy = true →
    ∃ st', removeMeasFold st ids = .ok st'
      ∧ st'.scales = st.scales
      ∧ measCoreList st' = ids.foldl (fun acc k => removeA acc k) (measCoreList st)
      ∧ (∀ g0, lookupA st.groups g0 = none → lookupA st'.groups g0 = none) := by
  induction ids with
  | nil =>
    intro st h
    exact ⟨st, rfl, rfl, rfl, fun g0 hg0 => hg0⟩
  | cons mid rest ih =>
    intro st h
    obtain ⟨r, st₂, hrm, hsc2, hcore2, hgn2⟩ := remove_measurement_spec st mid h
    have hh2 : st₂.measHealthy = true := by
      rw [measHealthy_coreList, hcore2]
      refine all_sub_filter _ _ ?_
      rw [← measHealthy_coreList]
      exact h
    obtain ⟨st', hfold, hsc', hcore', hgn'⟩ := ih st₂ hh2
    refine ⟨st', ?_, hsc'.trans hsc2, ?_, fun g0 hg0 => hgn' g0 (hgn2 g0 hg0)⟩
    · rw [removeMeasFold_cons]
      simp only [hrm, pout_bind_ok]
      exact hfold
    · rw [hcore', hcore2, List.foldl_cons]

theorem foldl_removeA_none {α : Type} (ids : List String) :
    ∀ (l : List (String × α)) (k : String), lookupA l k = none →
      lookupA (ids.foldl (fun acc k' => removeA acc k') l) k = none := by
  induction ids with
  | nil => intro l k h; exact h
  | cons b t ih =>
    intro l k h
    rw [List.foldl_cons]
    apply ih
    rw [lookupA_removeA]
    by_cases hk : k = b
    · rw [if_pos hk]
    · rw [if_neg hk]
      exact h

theorem foldl_removeA_mem {α : Type} (ids : List String) :
    ∀ (l : List (String × α)) (k : String), k ∈ ids →
      lookupA (ids.foldl (fun acc k' => removeA acc k') l) k = none := by
  induction ids with
  | nil => intro l k h; exact absurd h (List.not_mem_nil k)
  | cons b t ih =>
    intro l k h
    rw [List.foldl_cons]
    by_cases hk : k ∈ t
    · exact ih _ k hk
    · have hkb : k = b := by
        rcases List.mem_cons.mp h with hh | hh
        · exact hh
        · exact absurd hh hk
      apply foldl_removeA_none
      rw [lookupA_removeA, if_pos hkb]

/-- C7: `remove_group` on a present group id returns the removed group,
deletes the group entry, and deletes every measurement whose stored
`group_id` matches (each removal running its own cascade); querying any of
those measurement ids afterwards returns absent, and the scales map
survives. -/
theorem c7_remove_group_cascade (st : TakeoffStateHandler) (gid : String)
    (g : GroupWrapper) (h : st.measHealthy = true)
    (hg : lookupA st.groups gid = some g) :
    ∃ st', st.remove_group gid = .ok (some g.get_group, st')
      ∧ st'.get_group gid = none
      ∧ (∀ mid, mid ∈ memberKeysOf gid st.measurements →
          st'.get_measurement mid = none)
      ∧ st'.scales = st.scales := by
  have hgn1 : lookupA (removeA st.groups gid) gid = none := by
    rw [lookupA_removeA, if_pos rfl]
  obtain ⟨st', hfold, hsc, hcore, hgn⟩ :=
    removeMeasFold_spec (memberKeysOf gid st.measurements)
      { st with groups := removeA st.groups gid } h
  refine ⟨st', ?_, ?_, ?_, hsc⟩
  · unfold TakeoffStateHandler.remove_group
    rw [hg]
    simp only [collectGroupMembers_ok gid st.measurements h, pout_bind_ok, hfold,
      pout_pure_eq]
  · show lookupA st'.groups gid = none
    exact hgn gid hgn1
  · intro mid hmid
    show lookupA st'.measurements mid = none
    have h1 : lookupA (measCoreList st') mid = none := by
      rw [hcore]
      exact foldl_removeA_mem _ _ mid hmid
    rw [measCoreList, lookupA_map_proj] at h1
    cases hlm : lookupA st'.measurements mid with
    | none => rfl
    | some ww =>
      rw [hlm] at h1
      simp at h1

/-- The C7 registry: one group `"g"` with a single member measurement. -/
def c7Group : Group := ⟨"g", none, .area⟩

def c7Meas : Measurement := .count "m1" "p" "g" ⟨0, 0⟩

def c7St : TakeoffStateHandler :=
  { pages := []
    groups := [("g", GroupWrapper.new c7Group)]
    measurements := [("m1", MeasurementWrapper.new c7Meas)]
    scales := [] }

/-- C7 witness: the theorem applied at the concrete one-group registry, with
both hypotheses discharged by evaluation. -/
theorem c7_remove_group_cascade_witness :
    ∃ st', c7St.remove_group "g" = .ok (some (GroupWrapper.new c7Group).get_group, st')
      ∧ st'.get_group "g" = none
      ∧ (∀ mid, mid ∈ memberKeysOf "g" c7St.measurements →
          st'.get_measurement mid = none)
      ∧ st'.scales = c7St.scales :=
  c7_remove_group_cascade c7St "g" (GroupWrapper.new c7Group) (by decide) rfl

/-- The C6 witness registry: one group `"g"` with a single `Count` member and
no scales, so the member's area is absent and must be skipped — not counted
as zero. -/
def c6Group : Group := ⟨"g", none, .count⟩

def c6Meas : Measurement := .count "m1" "p" "g" ⟨0, 0⟩

def c6St : TakeoffStateHandler :=
  { pages := []
    groups := [("g", GroupWrapper.new c6Group)]
    measurements := [("m1", MeasurementWrapper.new c6Meas)]
    scales := [] }

/-- C6 witness: the theorem applied at the concrete registry, all five
hypotheses discharged by evaluation. -/
theorem c6_group_aggregates_witness :
    ∃ st' g', c6St.compute_group "g" = .ok st'
      ∧ lookupA st'.groups "g" = some g'
      ∧ g'.count.val = some (((memberKeysOf (GroupWrapper.new c6Group).id
          c6St.measurements).length : ℚ))
      ∧ g'.area.val
          = (match (memberKeysOf (GroupWrapper.new c6Group).id
                c6St.measurements).filterMap (areaValOf c6St) with
              | [] => none
              | l => some l.sum) :=
  c6_group_aggregates c6St "g" (GroupWrapper.new c6Group) (by decide) rfl rfl rfl rfl rfl

/-! ## Claim C10 — point counts are fixed at construction -/

theorem mem_updateA {α : Type} {l : List (String × α)} {k : String} {f : α → α}
    {kv : String × α} (h : kv ∈ updateA l k f) :
    kv ∈ l ∨ ∃ v, (kv.1, v) ∈ l ∧ kv.2 = f v := by
  induction l with
  | nil => simp [updateA] at h
  | cons kv0 t ih =>
    obtain ⟨a, u⟩ := kv0
    by_cases hak : a = k
    · rw [show updateA ((a, u) :: t) k f = (a, f u) :: t from by
        simp [updateA, beq_iff_eq.mpr hak]] at h
      rcases List.mem_cons.mp h with hh | hh
      · right
        exact ⟨u, by rw [hh]; exact List.mem_cons_self _ _, by rw [hh]⟩
      · left
        exact List.mem_cons_of_mem _ hh
    · rw [show updateA ((a, u) :: t) k f = (a, u) :: updateA t k f from by
        simp [updateA, show (a == k) = false from by simpa using hak]] at h
      rcases List.mem_cons.mp h with hh | hh
      · left
        rw [hh]
        exact List.mem_cons_self _ _
      · rcases ih hh with h1 | ⟨v, hv1, hv2⟩
        · left
          exact List.mem_cons_of_mem _ h1
        · right
          exact ⟨v, List.mem_cons_of_mem _ hv1, hv2⟩

/-- An in-place write that does not change its entry's poison flags keeps the
registry healthy. -/
theorem measHealthy_updMeas (st : TakeoffStateHandler) (mid : String)
    (f : MeasurementWrapper → MeasurementWrapper)
    (hf : ∀ v, (f v).healthy = v.healthy)
    (h : st.measHealthy = true) : (st.updMeas mid f).measHealthy = true := by
  rw [TakeoffStateHandler.measHealthy] at h ⊢
  rw [List.all_eq_true] at h ⊢
  intro kv hkv
  rcases mem_updateA hkv with h1 | ⟨v, hv1, hv2⟩
  · exact h kv h1
  · have h2 := h (kv.1, v) hv1
    show kv.2.healthy = true
    rw [hv2, hf v]
    exact h2

theorem updateA_self {α : Type} {l : List (String × α)} {k : String} {v : α}
    (h : lookupA l k = some v) : updateA l k (fun _ => v) = l := by
  induction l with
  | nil => rfl
  | cons kv t ih =>
    obtain ⟨a, u⟩ := kv
    rw [lookupA_cons] at h
    by_cases hak : a = k
    · rw [if_pos hak] at h
      obtain rfl : u = v := Option.some.inj h
      rw [show updateA ((a, u) :: t) k (fun _ => u) = (a, u) :: t from by
        simp [updateA, beq_iff_eq.mpr hak]]
    · rw [if_neg hak] at h
      rw [show updateA ((a, u) :: t) k (fun _ => v)
          = (a, u) :: updateA t k (fun _ => v) from by
        simp [updateA, show (a == k) = false from by simpa using hak], ih h]

/-- A cell already holding exactly its own recomputed value is a fixed point
of `get_area_value`. -/
theorem get_area_value_stable {u : MeasurementWrapper}
    (hap : u.area.poisoned = false) (hsa : u.calculate_area = .ok u.area.val) :
    u.get_area_value = (.ok u.area.val, u) := by
  cases hv : u.area.val with
  | some x =>
    simp [MeasurementWrapper.get_area_value, lock_mutex, hap, hv]
  | none =>
    rw [hv] at hsa
    have h1 : ({ u with area := { u.area with val := none } } : MeasurementWrapper)
        = u := by
      rw [← hv]
    simp only [hap] at h1
    simp [MeasurementWrapper.get_area_value, lock_mutex, hap, hv, hsa, h1]

theorem get_length_value_stable {u : MeasurementWrapper}
    (hlp : u.length.poisoned = false)
    (hsl : u.calculate_length = .ok u.length.val) :
    u.get_length_value = (.ok u.length.val, u) := by
  cases hv : u.length.val with
  | some x =>
    simp [MeasurementWrapper.get_length_value, lock_mutex, hlp, hv]
  | none =>
    rw [hv] at hsl
    have h1 : ({ u with length := { u.length with val := none } } : MeasurementWrapper)
        = u := by
      rw [← hv]
    simp only [hlp] at h1
    simp [MeasurementWrapper.get_length_value, lock_mutex, hlp, hv, hsl, h1]

/-- The group area pass leaves an entry alone once its area cell is the fixed
point of its own recompute. -/
theorem collectAreas_preserves_stable {mid : String} {u : MeasurementWrapper}
    (hap : u.area.poisoned = false) (hsa : u.calculate_area = .ok u.area.val)
    (ids : List String) :
    ∀ st : TakeoffStateHandler, lookupA st.measurements mid = some u →
      lookupA ((collectAreas st ids).2).measurements mid = some u := by
  induction ids with
  | nil => intro st hl; exact hl
  | cons mid' rest ih =>
    intro st hl
    rw [collectAreas_cons]
    split
    · exact ih st hl
    · next w hl' =>
      have hnext : lookupA (updateA st.measurements mid'
          (fun _ => (w.get_area_value).2)) mid = some u := by
        rw [lookupA_updateA]
        by_cases hmm : mid = mid'
        · rw [if_pos hmm]
          subst hmm
          rw [hl'] at hl
          obtain rfl : w = u := Option.some.inj hl
          rw [hl', get_area_value_stable hap hsa]
          rfl
        · rw [if_neg hmm]
          exact hl
      split
      · exact ih _ hnext
      · exact ih _ hnext

theorem groupLengthFold_preserves_stable {mid : String} {u : MeasurementWrapper}
    (hlp : u.length.poisoned = false)
    (hsl : u.calculate_length = .ok u.length.val) (ids : List String) :
    ∀ (st : TakeoffStateHandler) (acc : Option ℝ),
      lookupA st.measurements mid = some u →
      lookupA ((groupLengthFold st ids acc).2).measurements mid = some u := by
  induction ids with
  | nil => intro st acc hl; exact hl
  | cons mid' rest ih =>
    intro st acc hl
    rw [groupLengthFold_cons]
    split
    · exact ih st acc hl
    · next w hl' =>
      have hnext : lookupA (updateA st.measurements mid'
          (fun _ => (w.get_length_value).2)) mid = some u := by
        rw [lookupA_updateA]
        by_cases hmm : mid = mid'
        · rw [if_pos hmm]
          subst hmm
          rw [hl'] at hl
          obtain rfl : w = u := Option.some.inj hl
          rw [hl', get_length_value_stable hlp hsl]
          rfl
        · rw [if_neg hmm]
          exact hl
      split
      · exact ih _ _ hnext
      · exact ih _ _ hnext

/-- `compute_group` leaves an entry alone once both its cache cells are fixed
points of their own recomputes. -/
theorem compute_group_stable (st : TakeoffStateHandler) (gid : String)
    {mid : String} {u : MeasurementWrapper} (h : st.measHealthy = true)
    (hl : lookupA st.measurements mid = some u)
    (hap : u.area.poisoned = false) (hlp : u.length.poisoned = false)
    (hsa : u.calculate_area = .ok u.area.val)
    (hsl : u.calculate_length = .ok u.length.val) :
    ∃ st', st.compute_group gid = .ok st'
      ∧ lookupA st'.measurements mid = some u := by
  cases hg : lookupA st.groups gid with
  | none =>
    refine ⟨st, ?_, hl⟩
    unfold TakeoffStateHandler.compute_group
    rw [hg]
    rfl
  | some g =>
    unfold TakeoffStateHandler.compute_group
    rw [hg]
    unfold GroupWrapper.recompute_measurements
    simp only [collectGroupMembers_ok g.id st.measurements h, pout_bind_ok]
    have hA := collectAreas_preserves_stable hap hsa
      (memberKeysOf g.id st.measurements) st hl
    cases hc1 : collectAreas st (memberKeysOf g.id st.measurements) with
    | mk areaVals st₁ =>
      rw [hc1] at hA
      have hL := groupLengthFold_preserves_stable hlp hsl
        (memberKeysOf g.id st.measurements) st₁ none hA
      cases hc2 : groupLengthFold st₁ (memberKeysOf g.id st.measurements) none with
      | mk lenVal st₂ =>
        rw [hc2] at hL
        by_cases hga : g.area.poisoned = true
        · rw [if_pos hga]
          exact ⟨_, rfl, hA⟩
        · rw [if_neg hga]
          by_cases hgl : g.length.poisoned = true
          · rw [if_pos hgl]
            exact ⟨_, rfl, hL⟩
          · rw [if_neg hgl]
            by_cases hgp : g.points.poisoned = true
            · rw [if_pos hgp]
              exact ⟨_, rfl, hL⟩
            · rw [if_neg hgp]
              by_cases hgc : g.count.poisoned = true
              · rw [if_pos hgc]
                exact ⟨_, rfl, hL⟩
              · rw [if_neg hgc]
                exact ⟨_, rfl, hL⟩

/-- `MeasurementWrapper::recompute_measurements` when both recomputes succeed:
it stores exactly the computed area and length in the target's cells (the
subsequent group pass finds those cells already at their fixed points and
leaves them alone). -/
theorem mw_recompute_precise (st : TakeoffStateHandler) (mid : String)
    (u : MeasurementWrapper) (areaVal : Option ℚ) (lenVal : Option ℝ)
    (h : st.measHealthy = true)
    (hl : lookupA st.measurements mid = some u)
    (hca : u.calculate_area = .ok areaVal)
    (hcl : ({ u with area := { u.area with val := areaVal } }
        : MeasurementWrapper).calculate_length = .ok lenVal) :
    ∃ st₃, st.recompute_measurements mid = .ok (.ok PUnit.unit, st₃)
      ∧ lookupA st₃.measurements mid
          = some { u with
                   area := { u.area with val := areaVal },
                   length := { u.length with val := lenVal } } := by
  have hw := healthy_of_lookup h hl
  have hm := healthy_measurement hw
  have harea := healthy_area hw
  have hlen := healthy_length hw
  have hsafe1 : GroupSafe st (st.updMeas mid
      (fun w0 => { w0 with area := { w0.area with val := areaVal } })) :=
    groupSafe_updMeas st mid _ (fun v _ => ⟨rfl, rfl⟩)
  have hsafe2 : GroupSafe (st.updMeas mid
      (fun w0 => { w0 with area := { w0.area with val := areaVal } }))
      ((st.updMeas mid
        (fun w0 => { w0 with area := { w0.area with val := areaVal } })).updMeas mid
        (fun w0 => { w0 with length := { w0.length with val := lenVal } })) :=
    groupSafe_updMeas _ mid _ (fun v _ => ⟨rfl, rfl⟩)
  have hsafe12 := groupSafe_trans hsafe1 hsafe2
  have hh2 : ((st.updMeas mid
      (fun w0 => { w0 with area := { w0.area with val := areaVal } })).updMeas mid
      (fun w0 => { w0 with length := { w0.length with val := lenVal } })).measHealthy
      = true := by
    rw [measHealthy_of_coreList hsafe12.2.1]
    exact h
  have hl2 : lookupA ((st.updMeas mid
      (fun w0 => { w0 with area := { w0.area with val := areaVal } })).updMeas mid
      (fun w0 => { w0 with length := { w0.length with val := lenVal } })).measurements
      mid = some { u with
                   area := { u.area with val := areaVal },
                   length := { u.length with val := lenVal } } := by
    show lookupA (updateA (updateA st.measurements mid
        (fun w0 => { w0 with area := { w0.area with val := areaVal } })) mid
        (fun w0 => { w0 with length := { w0.length with val := lenVal } })) mid = _
    rw [lookupA_updateA, if_pos rfl, lookupA_updateA, if_pos rfl, hl]
    rfl
  obtain ⟨st₃, hcg, hpres⟩ := compute_group_stable _ u.measurement.val.group_id hh2 hl2
    harea hlen hca hcl
  refine ⟨st₃, ?_, hpres⟩
  unfold TakeoffStateHandler.recompute_measurements
  simp only [harea] at hcl
  simp only [hl, hca, harea, hlen, Bool.false_eq_true, if_false, hcl,
    MeasurementWrapper.get_group_id, hm, hcg, pout_bind_ok, pout_pure_eq]

/-- C10: the cached point count is fixed at construction time (Count → 1,
Rectangle → 4, Polygon/Polyline → number of points) and is never recomputed
by a geometry swap: `set_measurement` (the in-place `upsert_measurement`
path) replaces the stored geometry and refreshes the area and length caches
with the recomputed values of the *new* geometry, while `get_points` still
reports the point count of the original construction-time geometry. -/
theorem c10_points_fixed_at_construction (st : TakeoffStateHandler) (mid : String)
    (w : MeasurementWrapper) (m : Measurement) (areaVal : Option ℚ) (lenVal : Option ℝ)
    (h : st.measHealthy = true) (hl : lookupA st.measurements mid = some w)
    (hca : ({ w with measurement := { w.measurement with val := m } }
        : MeasurementWrapper).calculate_area = .ok areaVal)
    (hcl : ({ w with
              measurement := { w.measurement with val := m },
              area := { w.area with val := areaVal } }
        : MeasurementWrapper).calculate_length = .ok lenVal) :
    (∀ i pg g p, (MeasurementWrapper.new (.count i pg g p)).get_points = 1)
    ∧ (∀ i pg g p1 p2, (MeasurementWrapper.new (.rectangle i pg g p1 p2)).get_points = 4)
    ∧ (∀ i pg g ps,
        (MeasurementWrapper.new (.polygon i pg g ps)).get_points = (ps.length : ℚ))
    ∧ (∀ i pg g ps,
        (MeasurementWrapper.new (.polyline i pg g ps)).get_points = (ps.length : ℚ))
    ∧ (∃ st₂, st.set_measurement mid m = .ok st₂
        ∧ lookupA st₂.measurements mid
            = some { w with
                     measurement := { w.measurement with val := m },
                     area := { w.area with val := areaVal },
                     length := { w.length with val := lenVal } }
        ∧ (lookupA st₂.measurements mid).map MeasurementWrapper.get_points
            = some w.get_points) := by
  have hw := healthy_of_lookup h hl
  have hm := healthy_measurement hw
  have hstA : (st.updMeas mid (fun w0 =>
      { w0 with measurement := { w0.measurement with val := m } })).measHealthy
      = true :=
    measHealthy_updMeas st mid _ (fun v => rfl) h
  have hlA : lookupA (st.updMeas mid (fun w0 =>
      { w0 with measurement := { w0.measurement with val := m } })).measurements mid
      = some ({ w with measurement := { w.measurement with val := m } }
        : MeasurementWrapper) := by
    show lookupA (updateA st.measurements mid (fun w0 =>
      { w0 with measurement := { w0.measurement with val := m } })) mid = _
    rw [lookupA_updateA, if_pos rfl, hl]
    rfl
  obtain ⟨st₃, hrec, hpres⟩ := mw_recompute_precise
    (st.updMeas mid (fun w0 =>
      { w0 with measurement := { w0.measurement with val := m } })) mid
    ({ w with measurement := { w.measurement with val := m } }) areaVal lenVal
    hstA hlA hca hcl
  refine ⟨fun i pg g p => rfl, fun i pg g p1 p2 => rfl, fun i pg g ps => rfl,
    fun i pg g ps => rfl, st₃, ?_, ?_, ?_⟩
  · unfold TakeoffStateHandler.set_measurement
    simp only [hl, hm, Bool.false_eq_true, if_false, hrec, pout_bind_ok, pout_pure_eq]
  · exact hpres
  · rw [hpres]
    rfl

/-- The C10 registry: a `Rectangle` wrapper (4 cached points), whose geometry
is swapped for a 3-point `Polygon`. -/
def c10Meas : Measurement := .rectangle "m1" "p" "g" ⟨0, 0⟩ ⟨4, 3⟩

def c10NewMeas : Measurement := .polygon "m1" "p" "g" [⟨0, 0⟩, ⟨2, 0⟩, ⟨0, 2⟩]

def c10St : TakeoffStateHandler :=
  { pages := []
    groups := []
    measurements := [("m1", MeasurementWrapper.new c10Meas)]
    scales := [] }

/-- C10 witness: the theorem applied at the concrete rectangle-to-triangle
swap (no scale assigned, so both recomputes yield an absent value), with all
four hypotheses discharged by evaluation. -/
theorem c10_points_fixed_at_construction_witness :
    (∀ i pg g p, (MeasurementWrapper.new (.count i pg g p)).get_points = 1)
    ∧ (∀ i pg g p1 p2, (MeasurementWrapper.new (.rectangle i pg g p1 p2)).get_points = 4)
    ∧ (∀ i pg g ps,
        (MeasurementWrapper.new (.polygon i pg g ps)).get_points = (ps.length : ℚ))
    ∧ (∀ i pg g ps,
        (MeasurementWrapper.new (.polyline i pg g ps)).get_points = (ps.length : ℚ))
    ∧ (∃ st₂, c10St.set_measurement "m1" c10NewMeas = .ok st₂
        ∧ lookupA st₂.measurements "m1"
            = some { MeasurementWrapper.new c10Meas with
                     measurement := { (MeasurementWrapper.new c10Meas).measurement with
                                      val := c10NewMeas },
                     area := { (MeasurementWrapper.new c10Meas).area with val := none },
                     length := { (MeasurementWrapper.new c10Meas).length with
                                 val := none } }
        ∧ (lookupA st₂.measurements "m1").map MeasurementWrapper.get_points
            = some (MeasurementWrapper.new c10Meas).get_points) :=
  c10_points_fixed_at_construction c10St "m1" (MeasurementWrapper.new c10Meas)
    c10NewMeas none none (by decide) rfl rfl rfl

end Takeoff
